import Mathlib

/-!
Verification development for the `rdf_converter` repository.

The Python sources embedded here are `base_converter.py` (statement store,
class declarations, `clear_graph`), `graph_to_rdf.py` (property-graph
ingestion/extraction, identifier minting, name sanitization) and
`text_to_rdf.py` (rule-based triple extraction, merge, literal/entity
decision, RDF emission of extracted triples).

Modelling conventions:
* The rdflib `Graph` has set semantics; we model it as a duplicate-free
  `List Stmt`, where `addStmt` appends only statements not already present
  (so `List.length` matches rdflib's `len(graph)`).
* URIs are modelled structurally: the knowledge-graph namespace constructor
  `URI.kg local` stands for `http://example.org/kg/<local>`, and the fixed
  vocabulary URIs (`rdf:type`, `rdfs:label`, `rdfs:comment`,
  `rdfs:subClassOf`, `owl:Class`) are separate constructors.  This is
  faithful because the underlying namespace strings are pairwise distinct
  and none is a prefix of another, so URI string equality coincides with
  constructor-and-local equality.
* Attribute values are the primitive Python values the converters handle
  (`str`, `int`, `bool`, plus numeric literals modelled as rationals);
  list-valued attributes (the fan-out branch of node ingestion) are outside
  every claim and outside the modelled value domain.
* Python's `\w` word-character class is modelled on the character ranges
  the repository's inputs exercise: ASCII letters, digits, underscore, and
  the CJK range U+4E00–U+9FFF that the sanitizer's regex names explicitly.
-/

namespace RDFConv

/-- Primitive attribute values handled by the converters. -/
inductive Value where
  | vstr (s : String)
  | vint (n : Int)
  | vbool (b : Bool)
  | vnum (q : ℚ)
deriving DecidableEq, Repr

/-- RDF URIs used by the converters: the configurable knowledge-graph
namespace (`create_uri` with the default `kg` prefix) and the fixed
vocabulary terms imported from rdflib. -/
inductive URI where
  | kg (localName : String)
  | rdfType
  | rdfsLabel
  | rdfsComment
  | rdfsSubClassOf
  | owlClass
deriving DecidableEq, Repr

/-- An RDF node in object position: a URI or a literal with an optional
language tag (`Literal(value)` vs `Literal(value, lang='zh')`). -/
inductive Node where
  | uri (u : URI)
  | lit (v : Value) (lang : Option String)
deriving DecidableEq, Repr

/-- One RDF statement; subjects and predicates are always URIs in this
code base. -/
structure Stmt where
  subj : URI
  pred : URI
  obj : Node
deriving DecidableEq, Repr

/-- `BaseRDFConverter.add_triple` / `rdflib.Graph.add`: set semantics, a
duplicate insert is a no-op. -/
def addStmt (g : List Stmt) (s : Stmt) : List Stmt :=
  if s ∈ g then g else g ++ [s]

/-! ### Name sanitization (`_sanitize_name`, identical in both modules) -/

/-- Model of Python's `\w` (word character) on the ranges exercised by the
repository's inputs: ASCII letters, digits, underscore and the CJK range
`一-鿿` that the regex `[^\w一-鿿]` names explicitly. -/
def isWordChar (c : Char) : Bool :=
  (97 ≤ c.toNat && c.toNat ≤ 122) || (65 ≤ c.toNat && c.toNat ≤ 90) ||
  (48 ≤ c.toNat && c.toNat ≤ 57) || c = '_' ||
  (0x4e00 ≤ c.toNat && c.toNat ≤ 0x9fff)

/-- `re.sub(r'_+', '_', s)`: collapse each run of underscores to one. -/
def collapseUnders : List Char → List Char
  | [] => []
  | [c] => [c]
  | a :: b :: rest =>
    if a = '_' && b = '_' then collapseUnders (b :: rest)
    else a :: collapseUnders (b :: rest)

/-- Python `str.strip('_')`: drop leading and trailing underscores. -/
def stripUnders (l : List Char) : List Char :=
  ((l.dropWhile (· = '_')).reverse.dropWhile (· = '_')).reverse

/-- UTF-8 encoding of a Unicode code point, as `urllib.parse.quote`
percent-encodes it byte by byte. -/
def utf8Bytes (n : Nat) : List Nat :=
  if n < 0x80 then [n]
  else if n < 0x800 then [0xC0 + n / 64, 0x80 + n % 64]
  else if n < 0x10000 then
    [0xE0 + n / 4096, 0x80 + n / 64 % 64, 0x80 + n % 64]
  else
    [0xF0 + n / 262144, 0x80 + n / 4096 % 64, 0x80 + n / 64 % 64,
      0x80 + n % 64]

/-- Upper-case hexadecimal digit, as used by `urllib.parse.quote`. -/
def hexDigit (n : Nat) : Char :=
  if n < 10 then Char.ofNat (48 + n) else Char.ofNat (55 + n)

/-- The characters `urllib.parse.quote` never encodes (with `safe=''`):
ASCII letters, digits and `_ . - ~`. -/
def isQuoteSafe (c : Char) : Bool :=
  (97 ≤ c.toNat && c.toNat ≤ 122) || (65 ≤ c.toNat && c.toNat ≤ 90) ||
  (48 ≤ c.toNat && c.toNat ≤ 57) || c = '_' || c = '.' || c = '-' || c = '~'

/-- `urllib.parse.quote(·, safe='')` on one character. -/
def quoteChar (c : Char) : List Char :=
  if isQuoteSafe c then [c]
  else (utf8Bytes c.toNat).foldr
    (fun b acc => '%' :: hexDigit (b / 16) :: hexDigit (b % 16) :: acc) []

/-- `GraphToRDFConverter._sanitize_name` = `TextToRDFConverter._sanitize_name`:
replace every non-word character by `_`, collapse underscore runs, strip
outer underscores, then percent-encode the remainder. -/
def sanitizeName (name : String) : String :=
  ⟨(stripUnders (collapseUnders
      (name.data.map (fun c => if isWordChar c then c else '_')))).flatMap
    quoteChar⟩

/-! ### Graph converter state and operations (`graph_to_rdf.py`) -/

/-- Mutable state of a `GraphToRDFConverter`: the rdflib graph, the
`node_uri_map` external-key cache, and the reified-edge counter. -/
structure CState where
  store : List Stmt
  nodeMap : List (String × URI)
  counter : Nat
deriving DecidableEq, Repr

/-- Fresh converter (`__init__`). -/
def initState : CState := ⟨[], [], 0⟩

/-- Add one statement to the converter's graph. -/
def addS (st : CState) (s : Stmt) : CState :=
  { st with store := addStmt st.store s }

/-- `BaseRDFConverter.add_class` (callers pass at most a label; the label
literal carries the `zh` language tag). -/
def addClass (st : CState) (classURI : URI) (label : Option String)
    (comment : Option String) (parentClass : Option URI) : CState :=
  let st := addS st ⟨classURI, URI.rdfType, Node.uri URI.owlClass⟩
  let st := match label with
    | some l => addS st ⟨classURI, URI.rdfsLabel, Node.lit (Value.vstr l) (some "zh")⟩
    | none => st
  let st := match comment with
    | some c => addS st ⟨classURI, URI.rdfsComment, Node.lit (Value.vstr c) (some "zh")⟩
    | none => st
  match parentClass with
  | some p => addS st ⟨classURI, URI.rdfsSubClassOf, Node.uri p⟩
  | none => st

/-- `GraphToRDFConverter._get_or_create_node_uri`: cached identifier
minting. -/
def getOrCreateNodeURI (st : CState) (nodeId : String) : URI × CState :=
  match st.nodeMap.lookup nodeId with
  | some u => (u, st)
  | none =>
    let u := URI.kg ("entity_" ++ sanitizeName nodeId)
    (u, { st with nodeMap := st.nodeMap ++ [(nodeId, u)] })

/-- Python `str()` of a primitive value (used where the source formats a
value into a name). -/
def pyStr : Value → String
  | Value.vstr s => s
  | Value.vint n => toString n
  | Value.vbool b => if b then "True" else "False"
  | Value.vnum q => toString q

/-- `Literal(value)` for a primitive value. -/
def litOf (v : Value) : Node := Node.lit v none

/-- Dictionary lookup (`dict.get`) on the insertion-ordered record. -/
def lookupKey (d : List (String × Value)) (k : String) : Option Value :=
  d.lookup k

/-- `node_data.get('labels', node_data.get('label', ['Entity']))`, with a
string label promoted to a one-element list. -/
def labelsOf (d : List (String × Value)) : List String :=
  match (lookupKey d "labels").or (lookupKey d "label") with
  | some (Value.vstr s) => [s]
  | some v => [pyStr v]
  | none => ["Entity"]

/-- `GraphToRDFConverter._add_node_to_rdf`. -/
def addNodeToRDF (st : CState) (nodeId : String)
    (d : List (String × Value)) : CState :=
  let (nodeURI, st) := getOrCreateNodeURI st nodeId
  let st := (labelsOf d).foldl (fun st label =>
    let classURI := URI.kg (sanitizeName label)
    let st := addS st ⟨nodeURI, URI.rdfType, Node.uri classURI⟩
    addClass st classURI (some label) none none) st
  (d.filter (fun kv => kv.1 ∉ ["id", "labels", "label"])).foldl
    (fun st kv => addS st ⟨nodeURI, URI.kg (sanitizeName kv.1), litOf kv.2⟩) st

/-- The relation name of an edge record:
`edge_data.get('type', edge_data.get('relation', edge_data.get('label', 'relatedTo')))`. -/
def edgeRelName (d : List (String × Value)) : String :=
  match ((lookupKey d "type").or (lookupKey d "relation")).or
      (lookupKey d "label") with
  | some v => pyStr v
  | none => "relatedTo"

/-- The attribute part of an edge record (every key except the reserved
endpoint/relation keys). -/
def edgeProps (d : List (String × Value)) : List (String × Value) :=
  d.filter (fun kv =>
    kv.1 ∉ ["type", "relation", "label", "source", "target", "from", "to"])

/-- `GraphToRDFConverter._add_edge_to_rdf`: simple edges become one direct
statement, attributed edges are reified through a fresh `edge_<counter>`
node. -/
def addEdgeToRDF (st : CState) (source target : String)
    (d : List (String × Value)) : CState :=
  let (sourceURI, st) := getOrCreateNodeURI st source
  let (targetURI, st) := getOrCreateNodeURI st target
  let relType := edgeRelName d
  let relationURI := URI.kg (sanitizeName relType)
  let props := edgeProps d
  if props.isEmpty then
    addS st ⟨sourceURI, relationURI, Node.uri targetURI⟩
  else
    let edgeURI := URI.kg ("edge_" ++ toString st.counter)
    let st := { st with counter := st.counter + 1 }
    let st := addS st ⟨edgeURI, URI.rdfType, Node.uri (URI.kg (relType ++ "_Edge"))⟩
    let st := addS st ⟨edgeURI, URI.kg "hasSource", Node.uri sourceURI⟩
    let st := addS st ⟨edgeURI, URI.kg "hasTarget", Node.uri targetURI⟩
    props.foldl (fun st kv =>
      addS st ⟨edgeURI, URI.kg (sanitizeName kv.1), litOf kv.2⟩) st

/-- `BaseRDFConverter.clear_graph`: replaces the rdflib graph by a fresh
one; the subclass attributes (`node_uri_map`, `edge_counter`) are
untouched. -/
def clearGraph (st : CState) : CState := { st with store := [] }

/-- One ingestion-session operation on a `GraphToRDFConverter`. -/
inductive Op where
  | opNode (nodeId : String) (d : List (String × Value))
  | opEdge (source target : String) (d : List (String × Value))
  | opClear
deriving DecidableEq, Repr

/-- Interpret one operation. -/
def stepOp (st : CState) : Op → CState
  | Op.opNode nodeId d => addNodeToRDF st nodeId d
  | Op.opEdge source target d => addEdgeToRDF st source target d
  | Op.opClear => clearGraph st

/-- Interpret a session: a sequence of ingestion operations. -/
def runOps (st : CState) (ops : List Op) : CState :=
  ops.foldl stepOp st

/-! ### Property-graph extraction (`_convert_rdf_to_networkx`) -/

/-- The entity query `?entity a ?type`: a URI is a NetworkX node exactly
when it is the subject of some `rdf:type` statement. -/
def isNXNode (g : List Stmt) (u : URI) : Bool :=
  g.any (fun s => decide (s.pred = URI.rdfType ∧ s.subj = u))

/-- The relation query (`?subject ?predicate ?object` with `isURI(?object)`)
followed by the guard `subject in graph.nodes and obj in graph.nodes`:
the (subject, predicate, object) rows that become NetworkX edges. -/
def nxEdgeRows (g : List Stmt) : List (URI × URI × URI) :=
  g.filterMap (fun s =>
    match s.obj with
    | Node.uri o =>
      if isNXNode g s.subj && isNXNode g o then some (s.subj, s.pred, o)
      else none
    | Node.lit _ _ => none)

/-- The extracted connections whose two endpoints are `a` and `b` (the
reconstructed graph is undirected, so either orientation counts). -/
def connectionsBetween (g : List Stmt) (a b : URI) : List (URI × URI × URI) :=
  (nxEdgeRows g).filter (fun r =>
    decide ((r.1 = a ∧ r.2.2 = b) ∨ (r.1 = b ∧ r.2.2 = a)))

/-! ### Text pipeline (`text_to_rdf.py`) -/

/-- `ExtractedTriple`: the dataclass carried through the text pipeline.
The Python `confidence` float is modelled as a rational. -/
structure ExtractedTriple where
  subject : String
  predicate : String
  object : String
  confidence : ℚ := 0
  subject_type : String := "Entity"
  object_type : String := "Entity"
  relation_type : String := "Relation"
deriving DecidableEq, Repr

/-- An entity or relation candidate: the `{'text':…, 'type':…, 'pos':…}`
dictionaries produced by `_extract_entities` / `_extract_relations`. -/
structure TCand where
  text : String
  ty : String
  tag : String
deriving DecidableEq, Repr

/-- The `relation_types` predefined-relation table from
`TextToRDFConverter.__init__`. -/
def relationTypes : List (String × String) :=
  [("拥有", "owns"), ("工作于", "worksAt"), ("位于", "locatedAt"),
   ("发生于", "occurredAt"), ("参与", "participatesIn"),
   ("转账", "transfersTo"), ("关联", "relatedTo"), ("控制", "controls"),
   ("投资", "invests"), ("合作", "cooperatesWith")]

/-- Python `str.find` on character lists: index of the first occurrence of
`pat` in `sent` starting from position `i`, or `-1`. -/
def findAux (sent pat : List Char) (i : Nat) : Int :=
  match sent with
  | [] => if pat.isEmpty then Int.ofNat i else -1
  | _ :: rest =>
    if pat.isPrefixOf sent then Int.ofNat i else findAux rest pat (i + 1)

/-- Python `sentence.find(text)`. -/
def strFind (sent pat : String) : Int := findAux sent.data pat.data 0

/-- The inner `for relation in relations: … break` loop of
`_build_triples_from_entities_relations`: the first relation candidate
whose first occurrence lies strictly between the two entity positions. -/
def findBetween (rs : List TCand) (sentence : String) (sp op : Int) :
    Option TCand :=
  match rs with
  | [] => none
  | r :: rest =>
    if sp < strFind sentence r.text ∧ strFind sentence r.text < op then
      some r
    else findBetween rest sentence sp op

/-- The body of the pair loop: build the triple for entity candidates
`se` (subject) and `oe` (object), if a relation is chosen. -/
def pairTriple (relations : List TCand) (sentence : String)
    (se oe : TCand) : Option ExtractedTriple :=
  let subjectPos := strFind sentence se.text
  let objectPos := strFind sentence oe.text
  let bestRelation :=
    if relations.isEmpty then none
    else match findBetween relations sentence subjectPos objectPos with
      | some r => some r
      | none => relations.head?
  match bestRelation with
  | some best =>
    let predicate := match relationTypes.lookup best.text with
      | some canonical => canonical
      | none => best.text
    some { subject := se.text, predicate := predicate, object := oe.text,
           confidence := 6/10, subject_type := se.ty,
           object_type := oe.ty, relation_type := best.ty }
  | none => none

/-- The index pairs visited by
`for i in range(len(entities)-1): for j in range(i+1, len(entities))`. -/
def pairIdx (n : Nat) : List (Nat × Nat) :=
  (List.range (n - 1)).flatMap (fun i =>
    (List.range' (i + 1) (n - (i + 1))).map (fun j => (i, j)))

/-- `TextToRDFConverter._build_triples_from_entities_relations`. -/
def buildTriples (entities relations : List TCand)
    (sentence : String) : List ExtractedTriple :=
  if 2 ≤ entities.length ∧ 1 ≤ relations.length then
    (pairIdx entities.length).filterMap (fun ij =>
      match entities[ij.1]?, entities[ij.2]? with
      | some se, some oe => pairTriple relations sentence se oe
      | _, _ => none)
  else []

/-- Exact surface equality of two candidates' (subject, predicate, object)
strings, as tested in `_merge_triples`. -/
def surfEq (a b : ExtractedTriple) : Prop :=
  a.subject = b.subject ∧ a.predicate = b.predicate ∧ a.object = b.object

instance (a b : ExtractedTriple) : Decidable (surfEq a b) := by
  unfold surfEq; infer_instance

/-- `TextToRDFConverter._merge_triples`: keep the LLM candidates, then
append each rule candidate whose surface triple is not already kept. -/
def mergeTriples (ruleTriples llmTriples : List ExtractedTriple) :
    List ExtractedTriple :=
  ruleTriples.foldl (fun merged rt =>
    if merged.any (fun et => decide (surfEq rt et)) then merged
    else merged ++ [rt]) llmTriples

/-- ASCII decimal digit (model of Python `str.isdigit` on the exercised
inputs). -/
def isDig (c : Char) : Bool := 48 ≤ c.toNat && c.toNat ≤ 57

/-- Python `s.isdigit()`: nonempty and all digits. -/
def pyIsDigit (l : List Char) : Bool := !l.isEmpty && l.all isDig

/-- A date-pattern separator: a dash or a slash. -/
def isSep (c : Char) : Bool := c = '-' || c = '/'

/-- Does the list start with a digit (the final backtracking step of the
date regex)? -/
def headIsDig (l : List Char) : Bool :=
  match l with
  | w :: _ => isDig w
  | [] => false

/-- The month-day tail of the date regex (digit group of length 1 or 2,
separator, digit group of length 1 or 2), as the backtracking matcher
explores it. -/
def matchMonthDay (l : List Char) : Bool :=
  match l with
  | x :: y :: z :: rest =>
    (isDig x && isSep y && isDig z) ||
    (isDig x && isDig y && isSep z && headIsDig rest)
  | _ => false

/-- The date regex of `_is_literal` (four digits, separator, one or two
digits, separator, one or two digits) as an anchored prefix match,
mirroring `re.match`. -/
def matchDate (l : List Char) : Bool :=
  match l with
  | a :: b :: c :: d :: e :: rest =>
    isDig a && isDig b && isDig c && isDig d && isSep e && matchMonthDay rest
  | _ => false

/-- The `:\d{2}` tail of the clock-time regex. -/
def timeTail (l : List Char) : Bool :=
  match l with
  | ':' :: x :: y :: _ => isDig x && isDig y
  | _ => false

/-- The two-digit-hour alternative of the clock-time matcher. -/
def timeTailTwo (l : List Char) : Bool :=
  match l with
  | b :: rest2 => isDig b && timeTail rest2
  | [] => false

/-- The clock-time regex of `_is_literal` (one or two digits, a colon,
two digits) as an anchored prefix match, mirroring `re.match`. -/
def matchTime (l : List Char) : Bool :=
  match l with
  | a :: rest => isDig a && (timeTail rest || timeTailTwo rest)
  | [] => false

/-- The institution marker characters `'公司组织机构'`. -/
def markerChars : List Char := ['公', '司', '组', '织', '机', '构']

/-- `TextToRDFConverter._is_literal`. -/
def isLiteral (value : String) : Bool :=
  pyIsDigit ((value.data.filter (· ≠ '.')).filter (· ≠ '-')) ||
  matchDate value.data ||
  matchTime value.data ||
  (value.data.length < 10 && !markerChars.any (fun c => value.data.contains c))

/-- `TextToRDFConverter._add_triple_to_rdf` (the converter's only mutable
state is its rdflib graph). -/
def addTripleToRDF (g : List Stmt) (t : ExtractedTriple) : List Stmt :=
  let subjectURI := URI.kg (sanitizeName t.subject)
  let predicateURI := URI.kg (sanitizeName t.predicate)
  let objectNode :=
    if isLiteral t.object then Node.lit (Value.vstr t.object) none
    else Node.uri (URI.kg (sanitizeName t.object))
  let g := addStmt g ⟨subjectURI, predicateURI, objectNode⟩
  let subjectClassURI := URI.kg t.subject_type
  let g := addStmt g ⟨subjectURI, URI.rdfType, Node.uri subjectClassURI⟩
  let g := addStmt g ⟨subjectClassURI, URI.rdfType, Node.uri URI.owlClass⟩
  let g := addStmt g
    ⟨subjectClassURI, URI.rdfsLabel, Node.lit (Value.vstr t.subject_type) (some "zh")⟩
  let g :=
    if isLiteral t.object then g
    else
      let objectClassURI := URI.kg t.object_type
      let g := addStmt g ⟨URI.kg (sanitizeName t.object), URI.rdfType,
        Node.uri objectClassURI⟩
      let g := addStmt g ⟨objectClassURI, URI.rdfType, Node.uri URI.owlClass⟩
      addStmt g ⟨objectClassURI, URI.rdfsLabel,
        Node.lit (Value.vstr t.object_type) (some "zh")⟩
  let g := addStmt g
    ⟨subjectURI, URI.rdfsLabel, Node.lit (Value.vstr t.subject) (some "zh")⟩
  let g :=
    if isLiteral t.object then g
    else addStmt g ⟨URI.kg (sanitizeName t.object), URI.rdfsLabel,
      Node.lit (Value.vstr t.object) (some "zh")⟩
  if 0 < t.confidence then
    let statementURI := URI.kg ("statement_" ++ toString g.length)
    let g := addStmt g ⟨statementURI, URI.rdfType, Node.uri (URI.kg "Statement")⟩
    let g := addStmt g ⟨statementURI, URI.kg "hasSubject", Node.uri subjectURI⟩
    let g := addStmt g ⟨statementURI, URI.kg "hasPredicate", Node.uri predicateURI⟩
    let g := addStmt g ⟨statementURI, URI.kg "hasObject", objectNode⟩
    addStmt g ⟨statementURI, URI.kg "confidence",
      Node.lit (Value.vnum t.confidence) none⟩
  else g

/-! ### Generic store and string lemmas -/

theorem mem_addStmt {g : List Stmt} {s t : Stmt} :
    s ∈ addStmt g t ↔ s ∈ g ∨ s = t := by
  unfold addStmt
  split
  · next h => exact ⟨Or.inl, fun hs => hs.elim id (fun he => he ▸ h)⟩
  · simp

theorem self_mem_addStmt (g : List Stmt) (t : Stmt) : t ∈ addStmt g t :=
  mem_addStmt.mpr (Or.inr rfl)

theorem mem_addStmt_of_mem {g : List Stmt} {s : Stmt} (t : Stmt)
    (h : s ∈ g) : s ∈ addStmt g t :=
  mem_addStmt.mpr (Or.inl h)

theorem mem_addS {st : CState} {s t : Stmt} :
    s ∈ (addS st t).store ↔ s ∈ st.store ∨ s = t := mem_addStmt

/-- Two strings with distinct same-length prefixes are distinct. -/
theorem str_prefix_ne {p q : String} (x y : String)
    (hlen : p.data.length = q.data.length) (hpq : p ≠ q) :
    p ++ x ≠ q ++ y := by
  intro h
  apply hpq
  have hd : p.data ++ x.data = q.data ++ y.data := by
    have := congrArg String.data h
    rwa [String.data_append, String.data_append] at this
  exact String.ext (List.append_inj_left hd hlen)

/-- String concatenation with a fixed left part is injective. -/
theorem str_append_left_cancel {p x y : String} (h : p ++ x = p ++ y) :
    x = y := by
  have hd : p.data ++ x.data = p.data ++ y.data := by
    have := congrArg String.data h
    rwa [String.data_append, String.data_append] at this
  exact String.ext (List.append_cancel_left hd)

theorem entity_ne_entityPrefix (x : String) : "Entity" ≠ "entity_" ++ x := by
  have h : ("entity_" : String) ++ x = "e" ++ ("ntity_" ++ x) := by
    rw [show ("entity_" : String) = "e" ++ "ntity_" from by decide,
      String.append_assoc]
  rw [h, show ("Entity" : String) = "E" ++ "ntity" from by decide]
  exact str_prefix_ne _ _ (by decide) (by decide)

theorem entityPrefix_ne_edgePrefix (x y : String) :
    "entity_" ++ x ≠ "edge_" ++ y := by
  have h1 : ("entity_" : String) ++ x = "en" ++ ("tity_" ++ x) := by
    rw [show ("entity_" : String) = "en" ++ "tity_" from by decide,
      String.append_assoc]
  have h2 : ("edge_" : String) ++ y = "ed" ++ ("ge_" ++ y) := by
    rw [show ("edge_" : String) = "ed" ++ "ge_" from by decide,
      String.append_assoc]
  rw [h1, h2]
  exact str_prefix_ne _ _ (by decide) (by decide)

theorem entityPrefix_inj {x y : String} (h : x ≠ y) :
    "entity_" ++ x ≠ "entity_" ++ y :=
  fun he => h (str_append_left_cancel he)

/-! ### State-preservation lemmas for the converter operations -/

theorem getOrCreate_store (st : CState) (k : String) :
    ((getOrCreateNodeURI st k).2).store = st.store := by
  unfold getOrCreateNodeURI
  cases st.nodeMap.lookup k <;> rfl

theorem getOrCreate_counter (st : CState) (k : String) :
    ((getOrCreateNodeURI st k).2).counter = st.counter := by
  unfold getOrCreateNodeURI
  cases st.nodeMap.lookup k <;> rfl

theorem lookup_append_some {α β : Type} [BEq α] {l₁ : List (α × β)}
    (l₂ : List (α × β)) {k : α} {v : β} (h : l₁.lookup k = some v) :
    (l₁ ++ l₂).lookup k = some v := by
  induction l₁ with
  | nil => simp [List.lookup] at h
  | cons p rest ih =>
    obtain ⟨k₁, v₁⟩ := p
    rw [List.cons_append]
    simp only [List.lookup] at h ⊢
    cases hk : k == k₁ with
    | true => rw [hk] at h; exact h
    | false => rw [hk] at h; exact ih h

theorem lookup_append_none {α β : Type} [BEq α] [LawfulBEq α]
    (l : List (α × β)) (k : α) (u : β) :
    l.lookup k = none → (l ++ [(k, u)]).lookup k = some u := by
  induction l with
  | nil => intro _; simp [List.lookup]
  | cons p rest ih =>
    obtain ⟨k₁, v₁⟩ := p
    intro h
    rw [List.cons_append]
    simp only [List.lookup] at h ⊢
    cases hk : k == k₁ with
    | true => rw [hk] at h; cases h
    | false => rw [hk] at h; exact ih h

theorem getOrCreate_lookup_mono {st : CState} {k' : String} {u : URI}
    (k : String) (h : st.nodeMap.lookup k' = some u) :
    ((getOrCreateNodeURI st k).2).nodeMap.lookup k' = some u := by
  unfold getOrCreateNodeURI
  cases st.nodeMap.lookup k with
  | some _ => exact h
  | none => exact lookup_append_some _ h

theorem getOrCreate_lookup_self (st : CState) (k : String) :
    ((getOrCreateNodeURI st k).2).nodeMap.lookup k =
      some (getOrCreateNodeURI st k).1 := by
  unfold getOrCreateNodeURI
  cases hk : st.nodeMap.lookup k with
  | some u => exact hk
  | none => exact lookup_append_none _ _ _ hk

theorem addS_nodeMap (st : CState) (s : Stmt) :
    (addS st s).nodeMap = st.nodeMap := rfl

theorem addS_counter (st : CState) (s : Stmt) :
    (addS st s).counter = st.counter := rfl

theorem addClass_nodeMap (st : CState) (c : URI) (l cm : Option String)
    (p : Option URI) : (addClass st c l cm p).nodeMap = st.nodeMap := by
  unfold addClass
  cases l <;> cases cm <;> cases p <;> rfl

theorem addClass_counter (st : CState) (c : URI) (l cm : Option String)
    (p : Option URI) : (addClass st c l cm p).counter = st.counter := by
  unfold addClass
  cases l <;> cases cm <;> cases p <;> rfl

theorem addClass_store_mono {st : CState} {s : Stmt} (c : URI)
    (l cm : Option String) (p : Option URI) (h : s ∈ st.store) :
    s ∈ (addClass st c l cm p).store := by
  unfold addClass
  cases l <;> cases cm <;> cases p <;>
    simp only [mem_addS] <;> tauto

/-- Membership in the store after the attribute fold of node or edge
ingestion. -/
theorem mem_attrFold {eU : URI} {l : List (String × Value)} {st : CState}
    {s : Stmt} :
    s ∈ (l.foldl (fun st kv =>
        addS st ⟨eU, URI.kg (sanitizeName kv.1), litOf kv.2⟩) st).store ↔
      s ∈ st.store ∨
        ∃ kv ∈ l, s = ⟨eU, URI.kg (sanitizeName kv.1), litOf kv.2⟩ := by
  induction l generalizing st with
  | nil => simp
  | cons kv rest ih =>
    rw [List.foldl_cons, ih]
    simp only [mem_addS, List.mem_cons]
    constructor
    · rintro ((h | h) | ⟨kv', hkv', h⟩)
      · exact Or.inl h
      · exact Or.inr ⟨kv, Or.inl rfl, h⟩
      · exact Or.inr ⟨kv', Or.inr hkv', h⟩
    · rintro (h | ⟨kv', hkv' | hkv', h⟩)
      · exact Or.inl (Or.inl h)
      · exact Or.inl (Or.inr (hkv' ▸ h))
      · exact Or.inr ⟨kv', hkv', h⟩

theorem attrFold_counter (eU : URI) (l : List (String × Value))
    (st : CState) :
    (l.foldl (fun st kv =>
      addS st ⟨eU, URI.kg (sanitizeName kv.1), litOf kv.2⟩) st).counter =
      st.counter := by
  induction l generalizing st with
  | nil => rfl
  | cons kv rest ih => rw [List.foldl_cons, ih]; rfl

theorem attrFold_nodeMap (eU : URI) (l : List (String × Value))
    (st : CState) :
    (l.foldl (fun st kv =>
      addS st ⟨eU, URI.kg (sanitizeName kv.1), litOf kv.2⟩) st).nodeMap =
      st.nodeMap := by
  induction l generalizing st with
  | nil => rfl
  | cons kv rest ih => rw [List.foldl_cons, ih]; rfl

/-- Membership in the store produced by the attributed-edge branch of
`_add_edge_to_rdf`, in terms of the pre-mint state. -/
theorem addEdge_attr_mem {st : CState} {src tgt : String}
    {d : List (String × Value)} (hd : ¬(edgeProps d).isEmpty) {s : Stmt} :
    s ∈ (addEdgeToRDF st src tgt d).store ↔
      s ∈ st.store ∨
      s = ⟨URI.kg ("edge_" ++ toString st.counter), URI.rdfType,
        Node.uri (URI.kg (edgeRelName d ++ "_Edge"))⟩ ∨
      s = ⟨URI.kg ("edge_" ++ toString st.counter), URI.kg "hasSource",
        Node.uri (getOrCreateNodeURI st src).1⟩ ∨
      s = ⟨URI.kg ("edge_" ++ toString st.counter), URI.kg "hasTarget",
        Node.uri (getOrCreateNodeURI
          (getOrCreateNodeURI st src).2 tgt).1⟩ ∨
      ∃ kv ∈ edgeProps d,
        s = ⟨URI.kg ("edge_" ++ toString st.counter),
          URI.kg (sanitizeName kv.1), litOf kv.2⟩ := by
  obtain ⟨⟨sU, stA⟩, hsrc⟩ :
      ∃ p, getOrCreateNodeURI st src = p := ⟨_, rfl⟩
  obtain ⟨⟨tU, stB⟩, htgt⟩ :
      ∃ p, getOrCreateNodeURI stA tgt = p := ⟨_, rfl⟩
  have hAstore : stA.store = st.store := by
    have := getOrCreate_store st src; rw [hsrc] at this; exact this
  have hAcounter : stA.counter = st.counter := by
    have := getOrCreate_counter st src; rw [hsrc] at this; exact this
  have hBstore : stB.store = stA.store := by
    have := getOrCreate_store stA tgt; rw [htgt] at this; exact this
  have hBcounter : stB.counter = stA.counter := by
    have := getOrCreate_counter stA tgt; rw [htgt] at this; exact this
  unfold addEdgeToRDF
  rw [hsrc]
  dsimp only
  rw [htgt]
  dsimp only
  rw [if_neg (by simpa using hd)]
  rw [mem_attrFold]
  simp only [mem_addS, hBstore, hAstore, hBcounter, hAcounter, hsrc, htgt]
  tauto

theorem addEdge_attr_counter {st : CState} {src tgt : String}
    {d : List (String × Value)} (hd : ¬(edgeProps d).isEmpty) :
    (addEdgeToRDF st src tgt d).counter = st.counter + 1 := by
  obtain ⟨⟨sU, stA⟩, hsrc⟩ :
      ∃ p, getOrCreateNodeURI st src = p := ⟨_, rfl⟩
  obtain ⟨⟨tU, stB⟩, htgt⟩ :
      ∃ p, getOrCreateNodeURI stA tgt = p := ⟨_, rfl⟩
  have hAcounter : stA.counter = st.counter := by
    have := getOrCreate_counter st src; rw [hsrc] at this; exact this
  have hBcounter : stB.counter = stA.counter := by
    have := getOrCreate_counter stA tgt; rw [htgt] at this; exact this
  unfold addEdgeToRDF
  rw [hsrc]
  dsimp only
  rw [htgt]
  dsimp only
  rw [if_neg (by simpa using hd)]
  rw [attrFold_counter]
  simp [addS_counter, hBcounter, hAcounter]

/-! ### C2: attributed-edge reification on an empty session -/

/-- The edge record `{source: A, target: B, relation: "pays", amount: 100}`. -/
def paysRecord (A B : String) : List (String × Value) :=
  [("source", Value.vstr A), ("target", Value.vstr B),
   ("relation", Value.vstr "pays"), ("amount", Value.vint 100)]

/-- C2: Ingesting the attributed edge record
`{source: A, target: B, relation: "pays", amount: 100}` into an empty
session produces exactly the reified statements — an `edge_0` node typed
`pays_Edge`, `hasSource` to A's identifier, `hasTarget` to B's identifier,
and the literal `amount = 100` — and no direct `(A, pays, B)` statement. -/
theorem c2_attributed_edge_reification (A B : String) (hAB : A ≠ B) :
    (addEdgeToRDF initState A B (paysRecord A B)).store =
      [⟨URI.kg "edge_0", URI.rdfType, Node.uri (URI.kg "pays_Edge")⟩,
       ⟨URI.kg "edge_0", URI.kg "hasSource",
         Node.uri (URI.kg ("entity_" ++ sanitizeName A))⟩,
       ⟨URI.kg "edge_0", URI.kg "hasTarget",
         Node.uri (URI.kg ("entity_" ++ sanitizeName B))⟩,
       ⟨URI.kg "edge_0", URI.kg "amount", Node.lit (Value.vint 100) none⟩] ∧
    (⟨URI.kg ("entity_" ++ sanitizeName A), URI.kg (sanitizeName "pays"),
        Node.uri (URI.kg ("entity_" ++ sanitizeName B))⟩ : Stmt) ∉
      (addEdgeToRDF initState A B (paysRecord A B)).store := by
  have hstore :
      (addEdgeToRDF initState A B (paysRecord A B)).store =
        [⟨URI.kg "edge_0", URI.rdfType, Node.uri (URI.kg "pays_Edge")⟩,
         ⟨URI.kg "edge_0", URI.kg "hasSource",
           Node.uri (URI.kg ("entity_" ++ sanitizeName A))⟩,
         ⟨URI.kg "edge_0", URI.kg "hasTarget",
           Node.uri (URI.kg ("entity_" ++ sanitizeName B))⟩,
         ⟨URI.kg "edge_0", URI.kg "amount",
           Node.lit (Value.vint 100) none⟩] := by
    have hBA : (B == A) = false := beq_eq_false_iff_ne.mpr (Ne.symm hAB)
    simp [addEdgeToRDF, getOrCreateNodeURI, initState, paysRecord,
      edgeRelName, edgeProps, lookupKey, pyStr, litOf, addS, addStmt,
      hBA, List.lookup]
    exact ⟨by decide, by decide⟩
  refine ⟨hstore, ?_⟩
  rw [hstore]
  intro hmem
  have h0 : URI.kg ("entity_" ++ sanitizeName A) ≠ URI.kg "edge_0" := by
    intro h
    injection h with h'
    exact entityPrefix_ne_edgePrefix (sanitizeName A) "0"
      (h'.trans (by decide : ("edge_0" : String) = "edge_" ++ "0"))
  simp only [List.mem_cons, List.not_mem_nil, or_false, Stmt.mk.injEq]
    at hmem
  rcases hmem with ⟨h, -, -⟩ | ⟨h, -, -⟩ | ⟨h, -, -⟩ | ⟨h, -, -⟩ <;>
    exact h0 h

/-- Witness for C2 at the concrete keys `"A"` and `"B"`. -/
theorem c2_attributed_edge_reification_witness :
    ("A" : String) ≠ "B" ∧
    ((addEdgeToRDF initState "A" "B" (paysRecord "A" "B")).store =
      [⟨URI.kg "edge_0", URI.rdfType, Node.uri (URI.kg "pays_Edge")⟩,
       ⟨URI.kg "edge_0", URI.kg "hasSource",
         Node.uri (URI.kg ("entity_" ++ sanitizeName "A"))⟩,
       ⟨URI.kg "edge_0", URI.kg "hasTarget",
         Node.uri (URI.kg ("entity_" ++ sanitizeName "B"))⟩,
       ⟨URI.kg "edge_0", URI.kg "amount", Node.lit (Value.vint 100) none⟩] ∧
    (⟨URI.kg ("entity_" ++ sanitizeName "A"), URI.kg (sanitizeName "pays"),
        Node.uri (URI.kg ("entity_" ++ sanitizeName "B"))⟩ : Stmt) ∉
      (addEdgeToRDF initState "A" "B" (paysRecord "A" "B")).store) :=
  ⟨by decide, c2_attributed_edge_reification "A" "B" (by decide)⟩

/-! ### C1: re-ingestion of an attributed edge is not idempotent -/

/-- C1 counterexample: re-ingesting the identical attributed edge record
`{source: "A", target: "B", relation: "pays", amount: 100}` does not leave
the store unchanged — the second ingestion adds a second reified
edge-node. -/
theorem c1_counterexample :
    (addEdgeToRDF (addEdgeToRDF initState "A" "B" (paysRecord "A" "B"))
        "A" "B" (paysRecord "A" "B")).store ≠
      (addEdgeToRDF initState "A" "B" (paysRecord "A" "B")).store := by
  decide

/-- C1 (amended): re-ingesting an identical attributed edge record is not
idempotent: the second ingestion mints a fresh reified edge-node under the
incremented counter, adds its `rdf:type` statement (absent after the first
ingestion), and so strictly changes the store. -/
theorem c1_reingestion_not_idempotent (src tgt : String)
    (d : List (String × Value)) (hd : edgeProps d ≠ []) :
    (addEdgeToRDF initState src tgt d).counter = 1 ∧
    (addEdgeToRDF (addEdgeToRDF initState src tgt d) src tgt d).counter = 2 ∧
    (⟨URI.kg ("edge_" ++ toString 1), URI.rdfType,
        Node.uri (URI.kg (edgeRelName d ++ "_Edge"))⟩ : Stmt) ∈
      (addEdgeToRDF (addEdgeToRDF initState src tgt d) src tgt d).store ∧
    (⟨URI.kg ("edge_" ++ toString 1), URI.rdfType,
        Node.uri (URI.kg (edgeRelName d ++ "_Edge"))⟩ : Stmt) ∉
      (addEdgeToRDF initState src tgt d).store ∧
    (addEdgeToRDF (addEdgeToRDF initState src tgt d) src tgt d).store ≠
      (addEdgeToRDF initState src tgt d).store := by
  have hd' : ¬(edgeProps d).isEmpty := by
    cases hp : edgeProps d with
    | nil => exact absurd hp hd
    | cons a l => simp [hp]
  have hc1 : (addEdgeToRDF initState src tgt d).counter = 1 :=
    addEdge_attr_counter hd'
  have hc2 :
      (addEdgeToRDF (addEdgeToRDF initState src tgt d) src tgt d).counter =
        2 := by
    rw [addEdge_attr_counter hd', hc1]
  have hsubj1 : ∀ s ∈ (addEdgeToRDF initState src tgt d).store,
      s.subj = URI.kg ("edge_" ++ toString 0) := by
    intro s hs
    rw [addEdge_attr_mem hd'] at hs
    rcases hs with h | h | h | h | ⟨kv, -, h⟩
    · exact absurd h (by simp [initState])
    · rw [h]; rfl
    · rw [h]; rfl
    · rw [h]; rfl
    · rw [h]; rfl
  have hne : URI.kg ("edge_" ++ toString 1) ≠
      URI.kg ("edge_" ++ toString 0) := by
    intro h
    injection h with h'
    have := str_append_left_cancel h'
    exact absurd this (by decide)
  have hMem :
      (⟨URI.kg ("edge_" ++ toString 1), URI.rdfType,
        Node.uri (URI.kg (edgeRelName d ++ "_Edge"))⟩ : Stmt) ∈
      (addEdgeToRDF (addEdgeToRDF initState src tgt d) src tgt d).store := by
    rw [addEdge_attr_mem hd']
    rw [hc1]
    exact Or.inr (Or.inl rfl)
  have hNotMem :
      (⟨URI.kg ("edge_" ++ toString 1), URI.rdfType,
        Node.uri (URI.kg (edgeRelName d ++ "_Edge"))⟩ : Stmt) ∉
      (addEdgeToRDF initState src tgt d).store := by
    intro h
    exact hne (hsubj1 _ h)
  refine ⟨hc1, hc2, hMem, hNotMem, fun heq => hNotMem ?_⟩
  rw [← heq]
  exact hMem

/-- Witness for C1 (amended) at the concrete record
`{source: "A", target: "B", relation: "pays", amount: 100}`. -/
theorem c1_reingestion_not_idempotent_witness :
    edgeProps (paysRecord "A" "B") ≠ [] ∧
    ((addEdgeToRDF initState "A" "B" (paysRecord "A" "B")).counter = 1 ∧
    (addEdgeToRDF (addEdgeToRDF initState "A" "B" (paysRecord "A" "B"))
      "A" "B" (paysRecord "A" "B")).counter = 2 ∧
    (⟨URI.kg ("edge_" ++ toString 1), URI.rdfType,
        Node.uri (URI.kg (edgeRelName (paysRecord "A" "B") ++ "_Edge"))⟩ :
      Stmt) ∈
      (addEdgeToRDF (addEdgeToRDF initState "A" "B" (paysRecord "A" "B"))
        "A" "B" (paysRecord "A" "B")).store ∧
    (⟨URI.kg ("edge_" ++ toString 1), URI.rdfType,
        Node.uri (URI.kg (edgeRelName (paysRecord "A" "B") ++ "_Edge"))⟩ :
      Stmt) ∉
      (addEdgeToRDF initState "A" "B" (paysRecord "A" "B")).store ∧
    (addEdgeToRDF (addEdgeToRDF initState "A" "B" (paysRecord "A" "B"))
        "A" "B" (paysRecord "A" "B")).store ≠
      (addEdgeToRDF initState "A" "B" (paysRecord "A" "B")).store) :=
  ⟨by decide, c1_reingestion_not_idempotent "A" "B" (paysRecord "A" "B")
    (by decide)⟩

/-! ### Node-map preservation across session operations -/

theorem labelFold_nodeMap (nodeURI : URI) (lbs : List String) (st : CState) :
    (lbs.foldl (fun st label =>
      let classURI := URI.kg (sanitizeName label)
      let st := addS st ⟨nodeURI, URI.rdfType, Node.uri classURI⟩
      addClass st classURI (some label) none none) st).nodeMap =
      st.nodeMap := by
  induction lbs generalizing st with
  | nil => rfl
  | cons lb rest ih =>
    rw [List.foldl_cons, ih]
    dsimp only
    rw [addClass_nodeMap, addS_nodeMap]

theorem addNode_nodeMap (st : CState) (nodeId : String)
    (d : List (String × Value)) :
    (addNodeToRDF st nodeId d).nodeMap =
      ((getOrCreateNodeURI st nodeId).2).nodeMap := by
  obtain ⟨⟨nU, stA⟩, hmint⟩ :
      ∃ p, getOrCreateNodeURI st nodeId = p := ⟨_, rfl⟩
  unfold addNodeToRDF
  rw [hmint]
  dsimp only
  rw [attrFold_nodeMap, labelFold_nodeMap]

theorem addEdge_nodeMap (st : CState) (src tgt : String)
    (d : List (String × Value)) :
    (addEdgeToRDF st src tgt d).nodeMap =
      ((getOrCreateNodeURI (getOrCreateNodeURI st src).2 tgt).2).nodeMap := by
  obtain ⟨⟨sU, stA⟩, hsrc⟩ :
      ∃ p, getOrCreateNodeURI st src = p := ⟨_, rfl⟩
  obtain ⟨⟨tU, stB⟩, htgt⟩ :
      ∃ p, getOrCreateNodeURI stA tgt = p := ⟨_, rfl⟩
  unfold addEdgeToRDF
  rw [hsrc]
  dsimp only
  rw [htgt]
  dsimp only
  split
  · rfl
  · rw [attrFold_nodeMap]
    rfl

theorem stepOp_lookup_mono {st : CState} {k : String} {u : URI} (op : Op)
    (h : st.nodeMap.lookup k = some u) :
    (stepOp st op).nodeMap.lookup k = some u := by
  cases op with
  | opNode nodeId d =>
    rw [stepOp, addNode_nodeMap]
    exact getOrCreate_lookup_mono nodeId h
  | opEdge src tgt d =>
    rw [stepOp, addEdge_nodeMap]
    exact getOrCreate_lookup_mono tgt (getOrCreate_lookup_mono src h)
  | opClear => exact h

theorem runOps_lookup_mono {st : CState} {k : String} {u : URI}
    (ops : List Op) (h : st.nodeMap.lookup k = some u) :
    (runOps st ops).nodeMap.lookup k = some u := by
  induction ops generalizing st with
  | nil => exact h
  | cons op rest ih =>
    rw [runOps, List.foldl_cons]
    exact ih (stepOp_lookup_mono op h)

theorem getOrCreate_of_lookup {st : CState} {k : String} {u : URI}
    (h : st.nodeMap.lookup k = some u) :
    getOrCreateNodeURI st k = (u, st) := by
  unfold getOrCreateNodeURI
  rw [h]

/-! ### C4: identifier stability within a session -/

/-- C4: once `_get_or_create_node_uri` has minted an identifier for an
external key, every later call with the same key — after any further
sequence of node/edge ingestions and graph clears — returns the identifier
the first call returned. -/
theorem c4_identifier_stability (st : CState) (k : String) (ops : List Op) :
    (getOrCreateNodeURI (runOps (getOrCreateNodeURI st k).2 ops) k).1 =
      (getOrCreateNodeURI st k).1 := by
  have h1 := getOrCreate_lookup_self st k
  have h2 := runOps_lookup_mono ops h1
  rw [getOrCreate_of_lookup h2]

/-! ### C10: clearing the graph leaves the cache and counter intact -/

/-- C10: `clear_graph` empties the statement store but leaves the
external-key cache and the reified-edge counter unchanged: a key minted
before the clear is minted to the identical identifier afterwards, and the
next reified edge-node continues the sequential numbering from the
pre-clear counter value. -/
theorem c10_clear_frame (st : CState) (k : String) (u : URI)
    (h : st.nodeMap.lookup k = some u) (src tgt : String)
    (d : List (String × Value)) (hd : edgeProps d ≠ []) :
    (clearGraph st).store = [] ∧
    (clearGraph st).nodeMap = st.nodeMap ∧
    (clearGraph st).counter = st.counter ∧
    (getOrCreateNodeURI (clearGraph st) k).1 = u ∧
    (⟨URI.kg ("edge_" ++ toString st.counter), URI.rdfType,
        Node.uri (URI.kg (edgeRelName d ++ "_Edge"))⟩ : Stmt) ∈
      (addEdgeToRDF (clearGraph st) src tgt d).store ∧
    (addEdgeToRDF (clearGraph st) src tgt d).counter = st.counter + 1 := by
  have hd' : ¬(edgeProps d).isEmpty := by
    cases hp : edgeProps d with
    | nil => exact absurd hp hd
    | cons a l => simp [hp]
  have hlook : (clearGraph st).nodeMap.lookup k = some u := h
  refine ⟨rfl, rfl, rfl, ?_, ?_, ?_⟩
  · rw [getOrCreate_of_lookup hlook]
  · rw [addEdge_attr_mem hd']
    exact Or.inr (Or.inl rfl)
  · exact addEdge_attr_counter hd'

/-- Witness for C10 at a state with a cached key and counter 3. -/
theorem c10_clear_frame_witness :
    ((⟨[⟨URI.kg "x", URI.rdfType, Node.uri (URI.kg "T")⟩],
        [("A", URI.kg "entity_A")], 3⟩ : CState).nodeMap.lookup "A" =
      some (URI.kg "entity_A")) ∧
    edgeProps [("relation", Value.vstr "pays"), ("amount", Value.vint 100)] ≠
      [] ∧
    ((clearGraph ⟨[⟨URI.kg "x", URI.rdfType, Node.uri (URI.kg "T")⟩],
        [("A", URI.kg "entity_A")], 3⟩).store = [] ∧
     (clearGraph ⟨[⟨URI.kg "x", URI.rdfType, Node.uri (URI.kg "T")⟩],
        [("A", URI.kg "entity_A")], 3⟩).nodeMap =
       (⟨[⟨URI.kg "x", URI.rdfType, Node.uri (URI.kg "T")⟩],
        [("A", URI.kg "entity_A")], 3⟩ : CState).nodeMap ∧
     (clearGraph ⟨[⟨URI.kg "x", URI.rdfType, Node.uri (URI.kg "T")⟩],
        [("A", URI.kg "entity_A")], 3⟩).counter = 3 ∧
     (getOrCreateNodeURI (clearGraph ⟨[⟨URI.kg "x", URI.rdfType,
        Node.uri (URI.kg "T")⟩], [("A", URI.kg "entity_A")], 3⟩) "A").1 =
       URI.kg "entity_A" ∧
     (⟨URI.kg ("edge_" ++ toString 3), URI.rdfType,
        Node.uri (URI.kg (edgeRelName [("relation", Value.vstr "pays"),
          ("amount", Value.vint 100)] ++ "_Edge"))⟩ : Stmt) ∈
       (addEdgeToRDF (clearGraph ⟨[⟨URI.kg "x", URI.rdfType,
          Node.uri (URI.kg "T")⟩], [("A", URI.kg "entity_A")], 3⟩)
         "B" "C" [("relation", Value.vstr "pays"),
          ("amount", Value.vint 100)]).store ∧
     (addEdgeToRDF (clearGraph ⟨[⟨URI.kg "x", URI.rdfType,
          Node.uri (URI.kg "T")⟩], [("A", URI.kg "entity_A")], 3⟩)
        "B" "C" [("relation", Value.vstr "pays"),
          ("amount", Value.vint 100)]).counter = 3 + 1) :=
  ⟨by decide, by decide,
    c10_clear_frame _ "A" (URI.kg "entity_A") (by decide) "B" "C" _
      (by decide)⟩

/-! ### C6: class declarations for used type identifiers -/

/-- The class-declaration invariant relative to an excuse predicate `P`:
every type identifier used as the object of an `rdf:type` statement is
declared as an `owl:Class`, or is `owl:Class` itself (the object of the
declarations), or is excused by `P`. -/
def TypeInv (g : List Stmt) (P : URI → Prop) : Prop :=
  ∀ x T, (⟨x, URI.rdfType, Node.uri T⟩ : Stmt) ∈ g →
    (⟨T, URI.rdfType, Node.uri URI.owlClass⟩ : Stmt) ∈ g ∨
    T = URI.owlClass ∨ P T

/-- The `<relation>_Edge` class minted (but never declared) by the
attributed-edge branch of the given operation. -/
def opEdgeClass (op : Op) (T : URI) : Prop :=
  match op with
  | Op.opEdge _ _ d =>
    edgeProps d ≠ [] ∧ T = URI.kg (edgeRelName d ++ "_Edge")
  | _ => False

theorem TypeInv_weaken {g : List Stmt} {P Q : URI → Prop}
    (hPQ : ∀ T, P T → Q T) (h : TypeInv g P) : TypeInv g Q := by
  intro x T hx
  rcases h x T hx with h' | h' | h'
  · exact Or.inl h'
  · exact Or.inr (Or.inl h')
  · exact Or.inr (Or.inr (hPQ T h'))

theorem TypeInv_addStmt_nontype {g : List Stmt} {P : URI → Prop} {s : Stmt}
    (hs : s.pred ≠ URI.rdfType) (h : TypeInv g P) :
    TypeInv (addStmt g s) P := by
  intro x T hx
  rcases mem_addStmt.mp hx with hx' | hx'
  · rcases h x T hx' with h' | h' | h'
    · exact Or.inl (mem_addStmt_of_mem s h')
    · exact Or.inr (Or.inl h')
    · exact Or.inr (Or.inr h')
  · exact absurd (congrArg Stmt.pred hx').symm hs

/-- Membership after one label step of `_add_node_to_rdf` (type statement
followed by `add_class` with a label). -/
theorem mem_processLabel {st : CState} {nodeURI : URI} {lb : String}
    {s : Stmt} :
    s ∈ (addClass (addS st ⟨nodeURI, URI.rdfType,
          Node.uri (URI.kg (sanitizeName lb))⟩)
        (URI.kg (sanitizeName lb)) (some lb) none none).store ↔
      s ∈ st.store ∨
      s = ⟨nodeURI, URI.rdfType, Node.uri (URI.kg (sanitizeName lb))⟩ ∨
      s = ⟨URI.kg (sanitizeName lb), URI.rdfType, Node.uri URI.owlClass⟩ ∨
      s = ⟨URI.kg (sanitizeName lb), URI.rdfsLabel,
        Node.lit (Value.vstr lb) (some "zh")⟩ := by
  simp only [addClass, mem_addS]
  tauto

theorem TypeInv_processLabel {st : CState} {P : URI → Prop}
    (nodeURI : URI) (lb : String) (h : TypeInv st.store P) :
    TypeInv (addClass (addS st ⟨nodeURI, URI.rdfType,
        Node.uri (URI.kg (sanitizeName lb))⟩)
      (URI.kg (sanitizeName lb)) (some lb) none none).store P := by
  intro x T hx
  rcases mem_processLabel.mp hx with hx' | hx' | hx' | hx'
  · rcases h x T hx' with h' | h' | h'
    · exact Or.inl (mem_processLabel.mpr (Or.inl h'))
    · exact Or.inr (Or.inl h')
    · exact Or.inr (Or.inr h')
  · have hT : T = URI.kg (sanitizeName lb) := by
      have := congrArg Stmt.obj hx'
      simpa using this
    exact Or.inl (mem_processLabel.mpr (Or.inr (Or.inr (Or.inl (by rw [hT])))))
  · have hT : T = URI.owlClass := by
      have := congrArg Stmt.obj hx'
      simpa using this
    exact Or.inr (Or.inl hT)
  · have := congrArg Stmt.pred hx'
    simp at this

theorem TypeInv_labelFold {st : CState} {P : URI → Prop} (nodeURI : URI)
    (lbs : List String) (h : TypeInv st.store P) :
    TypeInv ((lbs.foldl (fun st label =>
      let classURI := URI.kg (sanitizeName label)
      let st := addS st ⟨nodeURI, URI.rdfType, Node.uri classURI⟩
      addClass st classURI (some label) none none) st)).store P := by
  induction lbs generalizing st with
  | nil => exact h
  | cons lb rest ih =>
    rw [List.foldl_cons]
    exact ih (TypeInv_processLabel nodeURI lb h)

theorem TypeInv_attrFold {st : CState} {P : URI → Prop} (eU : URI)
    (l : List (String × Value)) (h : TypeInv st.store P) :
    TypeInv ((l.foldl (fun st kv =>
      addS st ⟨eU, URI.kg (sanitizeName kv.1), litOf kv.2⟩) st)).store P := by
  induction l generalizing st with
  | nil => exact h
  | cons kv rest ih =>
    rw [List.foldl_cons]
    exact ih (TypeInv_addStmt_nontype (by simp) h)

theorem TypeInv_addNode {st : CState} {P : URI → Prop} (nodeId : String)
    (d : List (String × Value)) (h : TypeInv st.store P) :
    TypeInv (addNodeToRDF st nodeId d).store P := by
  obtain ⟨⟨nU, stA⟩, hmint⟩ :
      ∃ p, getOrCreateNodeURI st nodeId = p := ⟨_, rfl⟩
  have hAstore : stA.store = st.store := by
    have := getOrCreate_store st nodeId; rw [hmint] at this; exact this
  unfold addNodeToRDF
  rw [hmint]
  dsimp only
  exact TypeInv_attrFold _ _ (TypeInv_labelFold _ _ (hAstore ▸ h))

theorem TypeInv_addEdge {st : CState} {P : URI → Prop} (src tgt : String)
    (d : List (String × Value)) (h : TypeInv st.store P) :
    TypeInv (addEdgeToRDF st src tgt d).store
      (fun T => P T ∨ (edgeProps d ≠ [] ∧
        T = URI.kg (edgeRelName d ++ "_Edge"))) := by
  by_cases hprops : (edgeProps d).isEmpty
  · obtain ⟨⟨sU, stA⟩, hsrc⟩ :
        ∃ p, getOrCreateNodeURI st src = p := ⟨_, rfl⟩
    obtain ⟨⟨tU, stB⟩, htgt⟩ :
        ∃ p, getOrCreateNodeURI stA tgt = p := ⟨_, rfl⟩
    have hAstore : stA.store = st.store := by
      have := getOrCreate_store st src; rw [hsrc] at this; exact this
    have hBstore : stB.store = stA.store := by
      have := getOrCreate_store stA tgt; rw [htgt] at this; exact this
    unfold addEdgeToRDF
    rw [hsrc]
    dsimp only
    rw [htgt]
    dsimp only
    rw [if_pos hprops]
    refine TypeInv_weaken (fun T hT => Or.inl hT) ?_
    exact TypeInv_addStmt_nontype (by simp) (by rw [hBstore, hAstore]; exact h)
  · have hd : edgeProps d ≠ [] := by
      cases hp : edgeProps d with
      | nil => rw [hp] at hprops; exact absurd rfl hprops
      | cons a l => simp [hp]
    intro x T hx
    rw [addEdge_attr_mem hprops] at hx
    rcases hx with hx' | hx' | hx' | hx' | ⟨kv, -, hx'⟩
    · rcases h x T hx' with h' | h' | h'
      · exact Or.inl ((addEdge_attr_mem hprops).mpr (Or.inl h'))
      · exact Or.inr (Or.inl h')
      · exact Or.inr (Or.inr (Or.inl h'))
    · have hT : T = URI.kg (edgeRelName d ++ "_Edge") := by
        have := congrArg Stmt.obj hx'
        simpa using this
      exact Or.inr (Or.inr (Or.inr ⟨hd, hT⟩))
    · have := congrArg Stmt.pred hx'; simp at this
    · have := congrArg Stmt.pred hx'; simp at this
    · have := congrArg Stmt.pred hx'; simp at this

theorem TypeInv_step {st : CState} {P : URI → Prop} (op : Op)
    (h : TypeInv st.store P) :
    TypeInv (stepOp st op).store (fun T => P T ∨ opEdgeClass op T) := by
  cases op with
  | opNode nodeId d =>
    exact TypeInv_weaken (fun T hT => Or.inl hT) (TypeInv_addNode nodeId d h)
  | opEdge src tgt d => exact TypeInv_addEdge src tgt d h
  | opClear => intro x T hx; cases hx

theorem TypeInv_run {P : URI → Prop} (ops : List Op) (st : CState)
    (h : TypeInv st.store P) :
    TypeInv (runOps st ops).store
      (fun T => P T ∨ ∃ op ∈ ops, opEdgeClass op T) := by
  induction ops generalizing st P with
  | nil => exact TypeInv_weaken (fun T hT => Or.inl hT) h
  | cons op rest ih =>
    rw [runOps, List.foldl_cons]
    refine TypeInv_weaken ?_ (ih (stepOp st op) (TypeInv_step op h))
    rintro T ((hT | hT) | ⟨op', hop', hT⟩)
    · exact Or.inl hT
    · exact Or.inr ⟨op, List.mem_cons_self op rest, hT⟩
    · exact Or.inr ⟨op', List.mem_cons_of_mem op hop', hT⟩

/-- C6 counterexample: ingesting the attributed edge
`{source: "A", target: "B", relation: "pays", amount: 100}` puts the type
statement `(edge_0, rdf:type, pays_Edge)` in the store while no class
declaration `(pays_Edge, rdf:type, owl:Class)` exists. -/
theorem c6_counterexample :
    (⟨URI.kg "edge_0", URI.rdfType, Node.uri (URI.kg "pays_Edge")⟩ : Stmt) ∈
      (runOps initState [Op.opEdge "A" "B" (paysRecord "A" "B")]).store ∧
    (⟨URI.kg "pays_Edge", URI.rdfType, Node.uri URI.owlClass⟩ : Stmt) ∉
      (runOps initState [Op.opEdge "A" "B" (paysRecord "A" "B")]).store := by
  constructor <;> decide

/-- C6 (amended): after any sequence of node and edge ingestions from a
fresh session, every type identifier occurring as the object of an
`rdf:type` statement has a class declaration, with exactly two exceptions:
`owl:Class` itself (the object of the declarations), and the
`<relation>_Edge` type of a reified attributed edge, which the code never
declares as a class. -/
theorem c6_type_declaration_invariant (ops : List Op) (x T : URI)
    (h : (⟨x, URI.rdfType, Node.uri T⟩ : Stmt) ∈
      (runOps initState ops).store) :
    (⟨T, URI.rdfType, Node.uri URI.owlClass⟩ : Stmt) ∈
      (runOps initState ops).store ∨
    T = URI.owlClass ∨
    ∃ src tgt d, Op.opEdge src tgt d ∈ ops ∧ edgeProps d ≠ [] ∧
      T = URI.kg (edgeRelName d ++ "_Edge") := by
  have hbase : TypeInv initState.store (fun _ => False) := by
    intro x T hx; cases hx
  have hrun := TypeInv_run ops initState hbase
  rcases hrun x T h with h' | h' | h'
  · exact Or.inl h'
  · exact Or.inr (Or.inl h')
  · rcases h' with hF | ⟨op, hop, hT⟩
    · cases hF
    · cases op with
      | opEdge src tgt d =>
        exact Or.inr (Or.inr ⟨src, tgt, d, hop, hT.1, hT.2⟩)
      | opNode nodeId d => cases hT
      | opClear => cases hT

/-- Witness for C6 (amended): a session ingesting one typed node and one
attributed edge; the node's `Entity` type is declared, and the edge's
`pays_Edge` type falls under the edge-class exception. -/
theorem c6_type_declaration_invariant_witness :
    ((⟨URI.kg "edge_0", URI.rdfType, Node.uri (URI.kg "pays_Edge")⟩ : Stmt) ∈
      (runOps initState [Op.opNode "A" [],
        Op.opEdge "A" "B" (paysRecord "A" "B")]).store) ∧
    ((⟨URI.kg "pays_Edge", URI.rdfType, Node.uri URI.owlClass⟩ : Stmt) ∈
        (runOps initState [Op.opNode "A" [],
          Op.opEdge "A" "B" (paysRecord "A" "B")]).store ∨
      URI.kg "pays_Edge" = URI.owlClass ∨
      ∃ src tgt d, Op.opEdge src tgt d ∈
          [Op.opNode "A" [], Op.opEdge "A" "B" (paysRecord "A" "B")] ∧
        edgeProps d ≠ [] ∧
        URI.kg "pays_Edge" = URI.kg (edgeRelName d ++ "_Edge")) :=
  ⟨by decide,
    c6_type_declaration_invariant
      [Op.opNode "A" [], Op.opEdge "A" "B" (paysRecord "A" "B")]
      (URI.kg "edge_0") (URI.kg "pays_Edge") (by decide)⟩

/-! ### C5: sanitization determinism and injectivity -/

/-- ASCII letters and digits (no underscore). -/
def isAlnumAscii (c : Char) : Bool :=
  (97 ≤ c.toNat && c.toNat ≤ 122) || (65 ≤ c.toNat && c.toNat ≤ 90) ||
  (48 ≤ c.toNat && c.toNat ≤ 57)

theorem isWordChar_of_alnum {c : Char} (h : isAlnumAscii c) :
    isWordChar c := by
  unfold isAlnumAscii at h
  unfold isWordChar
  rcases Bool.or_eq_true_iff.mp h with h' | h'
  · rcases Bool.or_eq_true_iff.mp h' with h'' | h'' <;> simp [h'']
  · simp [h']

theorem ne_underscore_of_alnum {c : Char} (h : isAlnumAscii c) :
    c ≠ '_' := by
  intro hc
  subst hc
  simp [isAlnumAscii] at h

theorem isQuoteSafe_of_alnum {c : Char} (h : isAlnumAscii c) :
    isQuoteSafe c := by
  unfold isAlnumAscii at h
  unfold isQuoteSafe
  rcases Bool.or_eq_true_iff.mp h with h' | h'
  · rcases Bool.or_eq_true_iff.mp h' with h'' | h'' <;> simp [h'']
  · simp [h']

theorem map_wordKeep_id {l : List Char} (h : ∀ c ∈ l, isWordChar c) :
    l.map (fun c => if isWordChar c then c else '_') = l := by
  induction l with
  | nil => rfl
  | cons a rest ih =>
    rw [List.map_cons, if_pos (h a (List.mem_cons_self a rest)),
      ih (fun c hc => h c (List.mem_cons_of_mem a hc))]

theorem collapseUnders_id {l : List Char} (h : ∀ c ∈ l, c ≠ '_') :
    collapseUnders l = l := by
  induction l with
  | nil => rfl
  | cons a rest ih =>
    cases rest with
    | nil => rfl
    | cons b rest2 =>
      unfold collapseUnders
      rw [if_neg, ih (fun c hc => h c (List.mem_cons_of_mem a hc))]
      simp only [Bool.and_eq_true, decide_eq_true_eq, not_and]
      intro ha
      exact absurd ha (h a (List.mem_cons_self a (b :: rest2)))

theorem dropWhile_underscore_id {l : List Char} (h : ∀ c ∈ l, c ≠ '_') :
    l.dropWhile (· = '_') = l := by
  cases l with
  | nil => rfl
  | cons a rest =>
    rw [List.dropWhile_cons, if_neg]
    simp only [decide_eq_true_eq]
    exact h a (List.mem_cons_self a rest)

theorem stripUnders_id {l : List Char} (h : ∀ c ∈ l, c ≠ '_') :
    stripUnders l = l := by
  unfold stripUnders
  rw [dropWhile_underscore_id h,
    dropWhile_underscore_id (fun c hc => h c (List.mem_reverse.mp hc)),
    List.reverse_reverse]

theorem flatMap_quoteSafe_id {l : List Char} (h : ∀ c ∈ l, isQuoteSafe c) :
    l.flatMap quoteChar = l := by
  induction l with
  | nil => rfl
  | cons a rest ih =>
    rw [List.flatMap_cons, ih (fun c hc => h c (List.mem_cons_of_mem a hc))]
    rw [quoteChar, if_pos (h a (List.mem_cons_self a rest))]
    rfl

theorem sanitize_alnum_id {s : String}
    (hs : ∀ c ∈ s.data, isAlnumAscii c) : sanitizeName s = s := by
  unfold sanitizeName
  rw [map_wordKeep_id (fun c hc => isWordChar_of_alnum (hs c hc)),
    collapseUnders_id (fun c hc => ne_underscore_of_alnum (hs c hc)),
    stripUnders_id (fun c hc => ne_underscore_of_alnum (hs c hc)),
    flatMap_quoteSafe_id (fun c hc => isQuoteSafe_of_alnum (hs c hc))]

/-- C5 counterexample: the two distinct external keys `"a b"` and `"a_b"`,
both drawn from the claim's common alphabet (ASCII word characters and
whitespace), sanitize to the same identifier fragment. -/
theorem c5_counterexample :
    sanitizeName "a b" = sanitizeName "a_b" ∧ ("a b" : String) ≠ "a_b" := by
  constructor <;> decide

/-- C5 (amended): sanitization is deterministic (a pure function of its
input), but it is not injective on the full common alphabet — whitespace
and punctuation collapse onto underscores.  On external keys made of ASCII
letters and digits it is the identity, hence injective: two distinct
alphanumeric keys never collide. -/
theorem c5_sanitize_injective_on_alnum (s t : String)
    (hs : ∀ c ∈ s.data, isAlnumAscii c)
    (ht : ∀ c ∈ t.data, isAlnumAscii c) :
    sanitizeName s = s ∧ sanitizeName t = t ∧
      (sanitizeName s = sanitizeName t ↔ s = t) := by
  refine ⟨sanitize_alnum_id hs, sanitize_alnum_id ht, ?_, ?_⟩
  · intro h
    rwa [sanitize_alnum_id hs, sanitize_alnum_id ht] at h
  · intro h
    rw [h]

/-- Witness for C5 (amended) at the concrete keys `"abc"` and `"abd"`. -/
theorem c5_sanitize_injective_on_alnum_witness :
    (∀ c ∈ ("abc" : String).data, isAlnumAscii c) ∧
    (∀ c ∈ ("abd" : String).data, isAlnumAscii c) ∧
    (sanitizeName "abc" = "abc" ∧ sanitizeName "abd" = "abd" ∧
      (sanitizeName "abc" = sanitizeName "abd" ↔ ("abc" : String) = "abd")) :=
  ⟨by decide, by decide,
    c5_sanitize_injective_on_alnum "abc" "abd" (by decide) (by decide)⟩

/-! ### C3: simple-edge round trip -/

/-- C3 counterexample: ingesting an attribute-free edge alone (its
endpoints never ingested as nodes) adds exactly the one direct statement,
but the subsequent NetworkX extraction yields no connection at all between
the two entities: the entity query requires a type statement, which bare
edge endpoints never receive. -/
theorem c3_counterexample :
    (addEdgeToRDF initState "A" "B" [("relation", Value.vstr "pays")]).store =
      [⟨URI.kg "entity_A", URI.kg "pays", Node.uri (URI.kg "entity_B")⟩] ∧
    connectionsBetween
      (addEdgeToRDF initState "A" "B"
        [("relation", Value.vstr "pays")]).store
      (URI.kg "entity_A") (URI.kg "entity_B") = [] := by
  constructor <;> decide

/-- C3 (amended): for an attribute-free edge whose two distinct endpoints
have also been ingested as nodes, edge ingestion adds exactly one
statement (source identifier, relation identifier, target identifier), and
extraction yields exactly one relation-typed connection between the two
entity identifiers, with no reified edge-nodes among the extracted nodes
(only the two entities and their `Entity` class).  Keys and the relation
name are taken from the collision-free alphanumeric alphabet. -/
theorem c3_simple_edge_round_trip (A B rel : String) (hAB : A ≠ B)
    (hA : ∀ c ∈ A.data, isAlnumAscii c) (hB : ∀ c ∈ B.data, isAlnumAscii c)
    (hrel : ∀ c ∈ rel.data, isAlnumAscii c) :
    (addEdgeToRDF (addNodeToRDF (addNodeToRDF initState A []) B []) A B
        [("relation", Value.vstr rel)]).store =
      (addNodeToRDF (addNodeToRDF initState A []) B []).store ++
        [⟨URI.kg ("entity_" ++ A), URI.kg rel,
          Node.uri (URI.kg ("entity_" ++ B))⟩] ∧
    connectionsBetween
      (addEdgeToRDF (addNodeToRDF (addNodeToRDF initState A []) B []) A B
        [("relation", Value.vstr rel)]).store
      (URI.kg ("entity_" ++ A)) (URI.kg ("entity_" ++ B)) =
      [(URI.kg ("entity_" ++ A), URI.kg rel, URI.kg ("entity_" ++ B))] ∧
    (∀ u, isNXNode
      (addEdgeToRDF (addNodeToRDF (addNodeToRDF initState A []) B []) A B
        [("relation", Value.vstr rel)]).store u →
      u = URI.kg ("entity_" ++ A) ∨ u = URI.kg "Entity" ∨
        u = URI.kg ("entity_" ++ B)) := by
  have hsanA : sanitizeName A = A := sanitize_alnum_id hA
  have hsanB : sanitizeName B = B := sanitize_alnum_id hB
  have hsanRel : sanitizeName rel = rel := sanitize_alnum_id hrel
  have hEA : ("Entity" : String) ≠ "entity_" ++ A := entity_ne_entityPrefix A
  have hEB : ("Entity" : String) ≠ "entity_" ++ B := entity_ne_entityPrefix B
  have hABs : ("entity_" : String) ++ A ≠ "entity_" ++ B :=
    entityPrefix_inj hAB
  have hBA : (B == A) = false := beq_eq_false_iff_ne.mpr (Ne.symm hAB)
  have h1 : addNodeToRDF initState A [] =
      ⟨[⟨URI.kg ("entity_" ++ A), URI.rdfType, Node.uri (URI.kg "Entity")⟩,
        ⟨URI.kg "Entity", URI.rdfType, Node.uri URI.owlClass⟩,
        ⟨URI.kg "Entity", URI.rdfsLabel,
          Node.lit (Value.vstr "Entity") (some "zh")⟩],
       [(A, URI.kg ("entity_" ++ A))], 0⟩ := by
    simp [addNodeToRDF, getOrCreateNodeURI, initState, labelsOf, lookupKey,
      addClass, addS, addStmt, List.lookup, hsanA,
      show sanitizeName "Entity" = "Entity" from by decide,
      hEA, Ne.symm hEA]
  have h2 : addNodeToRDF (addNodeToRDF initState A []) B [] =
      ⟨[⟨URI.kg ("entity_" ++ A), URI.rdfType, Node.uri (URI.kg "Entity")⟩,
        ⟨URI.kg "Entity", URI.rdfType, Node.uri URI.owlClass⟩,
        ⟨URI.kg "Entity", URI.rdfsLabel,
          Node.lit (Value.vstr "Entity") (some "zh")⟩,
        ⟨URI.kg ("entity_" ++ B), URI.rdfType, Node.uri (URI.kg "Entity")⟩],
       [(A, URI.kg ("entity_" ++ A)), (B, URI.kg ("entity_" ++ B))], 0⟩ := by
    rw [h1]
    simp [addNodeToRDF, getOrCreateNodeURI, labelsOf, lookupKey,
      addClass, addS, addStmt, List.lookup, hsanB, hBA,
      show sanitizeName "Entity" = "Entity" from by decide,
      hEB, Ne.symm hEB, hABs, Ne.symm hABs]
  have h3 : (addEdgeToRDF (addNodeToRDF (addNodeToRDF initState A []) B [])
      A B [("relation", Value.vstr rel)]).store =
      [⟨URI.kg ("entity_" ++ A), URI.rdfType, Node.uri (URI.kg "Entity")⟩,
       ⟨URI.kg "Entity", URI.rdfType, Node.uri URI.owlClass⟩,
       ⟨URI.kg "Entity", URI.rdfsLabel,
         Node.lit (Value.vstr "Entity") (some "zh")⟩,
       ⟨URI.kg ("entity_" ++ B), URI.rdfType, Node.uri (URI.kg "Entity")⟩,
       ⟨URI.kg ("entity_" ++ A), URI.kg rel,
         Node.uri (URI.kg ("entity_" ++ B))⟩] := by
    rw [h2]
    simp [addEdgeToRDF, getOrCreateNodeURI, edgeRelName, edgeProps,
      lookupKey, pyStr, addS, addStmt, List.lookup, hsanRel, hBA]
  refine ⟨?_, ?_, ?_⟩
  · rw [h3, h2]
    rfl
  · rw [h3]
    simp [connectionsBetween, nxEdgeRows, isNXNode,
      hEA, Ne.symm hEA, hEB, Ne.symm hEB, hABs, Ne.symm hABs]
  · intro u hu
    rw [h3] at hu
    unfold isNXNode at hu
    rcases List.any_eq_true.mp hu with ⟨s, hs, hcond⟩
    rw [decide_eq_true_eq] at hcond
    simp only [List.mem_cons, List.not_mem_nil, or_false] at hs
    rcases hs with rfl | rfl | rfl | rfl | rfl
    · exact Or.inl hcond.2.symm
    · exact Or.inr (Or.inl hcond.2.symm)
    · exact absurd hcond.1 (by simp)
    · exact Or.inr (Or.inr hcond.2.symm)
    · exact absurd hcond.1 (by simp)

/-- Witness for C3 (amended) at the keys `"A"`, `"B"` and relation
`"pays"`. -/
theorem c3_simple_edge_round_trip_witness :
    ("A" : String) ≠ "B" ∧
    (∀ c ∈ ("A" : String).data, isAlnumAscii c) ∧
    (∀ c ∈ ("pays" : String).data, isAlnumAscii c) ∧
    connectionsBetween
      (addEdgeToRDF (addNodeToRDF (addNodeToRDF initState "A" []) "B" [])
        "A" "B" [("relation", Value.vstr "pays")]).store
      (URI.kg ("entity_" ++ "A")) (URI.kg ("entity_" ++ "B")) =
      [(URI.kg ("entity_" ++ "A"), URI.kg "pays",
        URI.kg ("entity_" ++ "B"))] :=
  ⟨by decide, by decide, by decide,
    (c3_simple_edge_round_trip "A" "B" "pays" (by decide) (by decide)
      (by decide) (by decide)).2.1⟩

/-! ### C7: pair assembly of extracted triples -/

/-- Placeholder candidate for total indexing in the assembly
specification. -/
def defaultTCand : TCand := ⟨"", "", ""⟩

/-- The relation the claim says assembly picks for an entity pair: the
first relation candidate in candidate-list scan order whose first
occurrence lies strictly between the two entities' first occurrences,
falling back to the head of the relation-candidate list. -/
def claimChosenRel (rs : List TCand) (sentence : String) (sp op : Int) :
    TCand :=
  ((rs.find? (fun r =>
    decide (sp < strFind sentence r.text ∧
      strFind sentence r.text < op))).getD (rs.headD defaultTCand))

/-- The triple the claim says the pair `(i, j)` yields. -/
def claimTripleFor (es rs : List TCand) (sentence : String)
    (ij : Nat × Nat) : ExtractedTriple :=
  let se := es.getD ij.1 defaultTCand
  let oe := es.getD ij.2 defaultTCand
  let best := claimChosenRel rs sentence (strFind sentence se.text)
    (strFind sentence oe.text)
  { subject := se.text,
    predicate := (relationTypes.lookup best.text).getD best.text,
    object := oe.text, confidence := 6/10, subject_type := se.ty,
    object_type := oe.ty, relation_type := best.ty }

theorem findBetween_eq_find? (rs : List TCand) (sentence : String)
    (sp op : Int) :
    findBetween rs sentence sp op =
      rs.find? (fun r => decide (sp < strFind sentence r.text ∧
        strFind sentence r.text < op)) := by
  induction rs with
  | nil => rfl
  | cons r rest ih =>
    rw [findBetween, List.find?_cons]
    by_cases h : sp < strFind sentence r.text ∧ strFind sentence r.text < op
    · rw [if_pos h, decide_eq_true h]
    · rw [if_neg h, decide_eq_false h, ih]

theorem pairIdx_bounds {n i j : Nat} (h : (i, j) ∈ pairIdx n) :
    i < j ∧ j < n := by
  unfold pairIdx at h
  rw [List.mem_flatMap] at h
  obtain ⟨i', hi', hj⟩ := h
  rw [List.mem_map] at hj
  obtain ⟨j', hj', hij⟩ := hj
  obtain ⟨rfl, rfl⟩ := Prod.mk.inj hij
  rw [List.mem_range] at hi'
  rw [List.mem_range'] at hj'
  omega

theorem filterMap_eq_map_of {α β : Type} {l : List α} {f : α → Option β}
    {g : α → β} (h : ∀ x ∈ l, f x = some (g x)) :
    l.filterMap f = l.map g := by
  induction l with
  | nil => rfl
  | cons a rest ih =>
    rw [List.filterMap_cons, List.map_cons,
      h a (List.mem_cons_self a rest),
      ih (fun x hx => h x (List.mem_cons_of_mem a hx))]

/-- C7: with at least two entity candidates and at least one relation
candidate, assembly emits exactly one triple per ordered index pair
`(i, j)` with `i < j`, choosing the first relation candidate in scan order
whose first occurrence lies strictly between the two entities' first
occurrences (falling back to the first entry of the relation list),
substituting the canonical name for a predefined relation, with confidence
0.6. -/
theorem c7_pair_assembly (es rs : List TCand) (sentence : String)
    (h2 : 2 ≤ es.length) (h1 : rs ≠ []) :
    buildTriples es rs sentence =
      (pairIdx es.length).map (claimTripleFor es rs sentence) ∧
    ∀ t ∈ buildTriples es rs sentence, t.confidence = 6/10 := by
  have hlen : 1 ≤ rs.length := List.length_pos.mpr h1
  have hmain : buildTriples es rs sentence =
      (pairIdx es.length).map (claimTripleFor es rs sentence) := by
    unfold buildTriples
    rw [if_pos ⟨h2, hlen⟩]
    apply filterMap_eq_map_of
    rintro ⟨i, j⟩ hij
    obtain ⟨hij', hjn⟩ := pairIdx_bounds hij
    have hi : i < es.length := lt_trans hij' hjn
    obtain ⟨r0, rs', rfl⟩ : ∃ r0 rs', rs = r0 :: rs' := by
      cases rs with
      | nil => exact absurd rfl h1
      | cons r0 rs' => exact ⟨r0, rs', rfl⟩
    rw [List.getElem?_eq_getElem hi, List.getElem?_eq_getElem hjn]
    unfold pairTriple claimTripleFor claimChosenRel
    dsimp only
    rw [if_neg (by simp)]
    rw [findBetween_eq_find?]
    rw [List.getD_eq_getElem _ _ hi, List.getD_eq_getElem _ _ hjn]
    cases hfind : (r0 :: rs').find? (fun r =>
        decide ((strFind sentence es[i].text < strFind sentence r.text ∧
          strFind sentence r.text < strFind sentence es[j].text))) with
    | some r =>
      dsimp only [Option.getD, List.headD, List.head?]
      cases List.lookup r.text relationTypes <;> rfl
    | none =>
      dsimp only [Option.getD, List.headD, List.head?]
      cases List.lookup r0.text relationTypes <;> rfl
  refine ⟨hmain, ?_⟩
  intro t ht
  rw [hmain, List.mem_map] at ht
  obtain ⟨ij, -, rfl⟩ := ht
  rfl

/-- Witness for C7 at the spec's pinned example
"张三 工作于 北京科技公司". -/
theorem c7_pair_assembly_witness :
    2 ≤ ([⟨"张三", "Person", "nr"⟩,
      ⟨"北京科技公司", "Organization", "nt"⟩] : List TCand).length ∧
    ([⟨"工作于", "PredefinedRelation", "v"⟩] : List TCand) ≠ [] ∧
    (buildTriples [⟨"张三", "Person", "nr"⟩,
        ⟨"北京科技公司", "Organization", "nt"⟩]
        [⟨"工作于", "PredefinedRelation", "v"⟩] "张三工作于北京科技公司" =
      (pairIdx 2).map (claimTripleFor
        [⟨"张三", "Person", "nr"⟩, ⟨"北京科技公司", "Organization", "nt"⟩]
        [⟨"工作于", "PredefinedRelation", "v"⟩] "张三工作于北京科技公司") ∧
    ∀ t ∈ buildTriples [⟨"张三", "Person", "nr"⟩,
        ⟨"北京科技公司", "Organization", "nt"⟩]
        [⟨"工作于", "PredefinedRelation", "v"⟩] "张三工作于北京科技公司",
      t.confidence = 6/10) :=
  ⟨by decide, by decide,
    c7_pair_assembly _ _ _ (by decide) (by decide)⟩

/-! ### C8: merge of rule-based and externally supplied candidates -/

/-- Number of candidates in `l` with the same (subject, predicate, object)
surface strings as `t`. -/
def countSurf (l : List ExtractedTriple) (t : ExtractedTriple) : Nat :=
  l.countP (fun x => decide (surfEq t x))

theorem surfEq_symm {a b : ExtractedTriple} (h : surfEq a b) : surfEq b a :=
  ⟨h.1.symm, h.2.1.symm, h.2.2.symm⟩

theorem surfEq_trans {a b c : ExtractedTriple} (hab : surfEq a b)
    (hbc : surfEq b c) : surfEq a c :=
  ⟨hab.1.trans hbc.1, hab.2.1.trans hbc.2.1, hab.2.2.trans hbc.2.2⟩

theorem countSurf_congr {l : List ExtractedTriple}
    {t t' : ExtractedTriple} (h : surfEq t t') :
    countSurf l t = countSurf l t' := by
  unfold countSurf
  apply List.countP_congr
  intro x _
  constructor
  · intro hx
    exact decide_eq_true (surfEq_trans (surfEq_symm h) (of_decide_eq_true hx))
  · intro hx
    exact decide_eq_true (surfEq_trans h (of_decide_eq_true hx))

theorem any_surf_iff {acc : List ExtractedTriple} {r : ExtractedTriple} :
    acc.any (fun et => decide (surfEq r et)) = true ↔
      0 < countSurf acc r := by
  rw [List.any_eq_true]
  unfold countSurf
  rw [List.countP_pos_iff]

theorem countSurf_append (l₁ l₂ : List ExtractedTriple)
    (t : ExtractedTriple) :
    countSurf (l₁ ++ l₂) t = countSurf l₁ t + countSurf l₂ t :=
  List.countP_append _ _ _

theorem countSurf_singleton (r t : ExtractedTriple) :
    countSurf [r] t = if surfEq t r then 1 else 0 := by
  unfold countSurf
  rw [List.countP_cons, List.countP_nil]
  by_cases h : surfEq t r
  · rw [if_pos h, if_pos (decide_eq_true h)]
  · rw [if_neg h, if_neg (by simpa using h)]

theorem countSurf_cons (r : ExtractedTriple)
    (rs : List ExtractedTriple) (t : ExtractedTriple) :
    countSurf (r :: rs) t = (if surfEq t r then 1 else 0) + countSurf rs t := by
  have : r :: rs = [r] ++ rs := rfl
  rw [this, countSurf_append, countSurf_singleton]

/-- Multiplicity characterization of the `_merge_triples` fold. -/
theorem mergeFold_count (ruleT : List ExtractedTriple) :
    ∀ (acc : List ExtractedTriple) (t : ExtractedTriple),
    countSurf (ruleT.foldl (fun merged rt =>
      if merged.any (fun et => decide (surfEq rt et)) then merged
      else merged ++ [rt]) acc) t =
      if countSurf acc t = 0 then min 1 (countSurf ruleT t)
      else countSurf acc t := by
  induction ruleT with
  | nil =>
    intro acc t
    rw [List.foldl_nil]
    by_cases h : countSurf acc t = 0
    · rw [if_pos h, h]; rfl
    · rw [if_neg h]
  | cons r rs ih =>
    intro acc t
    rw [List.foldl_cons, countSurf_cons]
    by_cases ht : surfEq t r
    · have hcongr : countSurf acc r = countSurf acc t :=
        countSurf_congr (surfEq_symm ht)
      by_cases hacc : countSurf acc t = 0
      · have hany : acc.any (fun et => decide (surfEq r et)) = false := by
          rw [← Bool.not_eq_true, any_surf_iff, hcongr, hacc]
          omega
        rw [if_neg (by rw [hany]; exact Bool.false_ne_true), ih]
        rw [countSurf_append, countSurf_singleton, if_pos ht, hacc]
        rw [if_neg (by omega : ¬(0 + 1 = 0)), if_pos (rfl : (0 : Nat) = 0)]
        omega
      · have hany : acc.any (fun et => decide (surfEq r et)) = true := by
          rw [any_surf_iff, hcongr]
          omega
        rw [if_pos hany, ih, if_neg hacc, if_neg hacc]
    · have h1 : ∀ acc' : List ExtractedTriple,
          countSurf (acc' ++ [r]) t = countSurf acc' t := by
        intro acc'
        rw [countSurf_append, countSurf_singleton, if_neg ht, Nat.add_zero]
      rw [if_neg ht]
      by_cases hany : acc.any (fun et => decide (surfEq r et)) = true
      · rw [if_pos hany, ih]
        have : 0 + countSurf rs t = countSurf rs t := by omega
        rw [this]
      · rw [if_neg hany, ih, h1]
        have : 0 + countSurf rs t = countSurf rs t := by omega
        rw [this]

/-- The merge fold only appends to the accumulator, and appends only
rule-based candidates. -/
theorem mergeFold_prefix (ruleT : List ExtractedTriple) :
    ∀ acc : List ExtractedTriple,
    ∃ suf, (ruleT.foldl (fun merged rt =>
      if merged.any (fun et => decide (surfEq rt et)) then merged
      else merged ++ [rt]) acc) = acc ++ suf ∧ ∀ t ∈ suf, t ∈ ruleT := by
  induction ruleT with
  | nil =>
    intro acc
    exact ⟨[], by rw [List.foldl_nil, List.append_nil], by simp⟩
  | cons r rs ih =>
    intro acc
    rw [List.foldl_cons]
    by_cases hany : acc.any (fun et => decide (surfEq r et)) = true
    · rw [if_pos hany]
      obtain ⟨suf, hsuf, hmem⟩ := ih acc
      exact ⟨suf, hsuf,
        fun t ht => List.mem_cons_of_mem r (hmem t ht)⟩
    · rw [if_neg hany]
      obtain ⟨suf, hsuf, hmem⟩ := ih (acc ++ [r])
      refine ⟨[r] ++ suf, by rw [hsuf, List.append_assoc], ?_⟩
      intro t ht
      rcases List.mem_append.mp ht with ht' | ht'
      · rw [List.mem_singleton.mp ht']
        exact List.mem_cons_self r rs
      · exact List.mem_cons_of_mem r (hmem t ht')

/-- C8 counterexample: the surface triple (A, worksAt, B) is present in
both inputs — twice among the externally supplied candidates — and
appears twice, not exactly once, in the merged result. -/
theorem c8_counterexample :
    0 < countSurf [⟨"A", "worksAt", "B", 6/10, "Person", "Company",
        "Relation"⟩]
      ⟨"A", "worksAt", "B", 9/10, "Person", "Company", "Employment"⟩ ∧
    0 < countSurf [⟨"A", "worksAt", "B", 9/10, "Person", "Company",
        "Employment"⟩,
        ⟨"A", "worksAt", "B", 9/10, "Person", "Company", "Employment"⟩]
      ⟨"A", "worksAt", "B", 9/10, "Person", "Company", "Employment"⟩ ∧
    countSurf (mergeTriples
        [⟨"A", "worksAt", "B", 6/10, "Person", "Company", "Relation"⟩]
        [⟨"A", "worksAt", "B", 9/10, "Person", "Company", "Employment"⟩,
         ⟨"A", "worksAt", "B", 9/10, "Person", "Company", "Employment"⟩])
      ⟨"A", "worksAt", "B", 9/10, "Person", "Company", "Employment"⟩ = 2 := by
  refine ⟨by decide, by decide, by decide⟩

/-- C8 (amended): the merge keeps every externally supplied candidate
verbatim and in order (as a prefix), appends only rule-based candidates,
and the multiplicity of any surface triple in the merged result is its
externally supplied multiplicity when nonzero, and otherwise one exactly
when some rule-based candidate carries that surface; in particular a
surface triple occurring once among the externally supplied candidates
and also among the rule-based ones appears exactly once. -/
theorem c8_merge_characterization (ruleT llmT : List ExtractedTriple) :
    (mergeTriples ruleT llmT).take llmT.length = llmT ∧
    (∀ t ∈ (mergeTriples ruleT llmT).drop llmT.length, t ∈ ruleT) ∧
    (∀ t, countSurf (mergeTriples ruleT llmT) t =
      if countSurf llmT t = 0 then min 1 (countSurf ruleT t)
      else countSurf llmT t) := by
  obtain ⟨suf, hsuf, hmem⟩ := mergeFold_prefix ruleT llmT
  refine ⟨?_, ?_, fun t => mergeFold_count ruleT llmT t⟩
  · rw [mergeTriples, hsuf, List.take_left]
  · intro t ht
    rw [mergeTriples, hsuf, List.drop_left] at ht
    exact hmem t ht

/-- Witness for C8 (amended) at the dedup example: one (A, worksAt, B)
candidate on each side merges to exactly one. -/
theorem c8_merge_characterization_witness :
    (mergeTriples
        [⟨"A", "worksAt", "B", 6/10, "Person", "Company", "Relation"⟩]
        [⟨"A", "worksAt", "B", 9/10, "Person", "Company",
          "Employment"⟩]).take 1 =
      [⟨"A", "worksAt", "B", 9/10, "Person", "Company", "Employment"⟩] ∧
    countSurf (mergeTriples
        [⟨"A", "worksAt", "B", 6/10, "Person", "Company", "Relation"⟩]
        [⟨"A", "worksAt", "B", 9/10, "Person", "Company", "Employment"⟩])
      ⟨"A", "worksAt", "B", 9/10, "Person", "Company", "Employment"⟩ =
      if countSurf [⟨"A", "worksAt", "B", 9/10, "Person", "Company",
          "Employment"⟩]
        ⟨"A", "worksAt", "B", 9/10, "Person", "Company",
          "Employment"⟩ = 0 then
        min 1 (countSurf [⟨"A", "worksAt", "B", 6/10, "Person", "Company",
          "Relation"⟩]
          ⟨"A", "worksAt", "B", 9/10, "Person", "Company", "Employment"⟩)
      else countSurf [⟨"A", "worksAt", "B", 9/10, "Person", "Company",
        "Employment"⟩]
        ⟨"A", "worksAt", "B", 9/10, "Person", "Company", "Employment"⟩ :=
  ⟨(c8_merge_characterization
      [⟨"A", "worksAt", "B", 6/10, "Person", "Company", "Relation"⟩]
      [⟨"A", "worksAt", "B", 9/10, "Person", "Company", "Employment"⟩]).1,
   (c8_merge_characterization
      [⟨"A", "worksAt", "B", 6/10, "Person", "Company", "Relation"⟩]
      [⟨"A", "worksAt", "B", 9/10, "Person", "Company", "Employment"⟩]).2.2
     ⟨"A", "worksAt", "B", 9/10, "Person", "Company", "Employment"⟩⟩

/-! ### C9: the literal-vs-entity decision -/

/-- The claim's date pattern, stated from the spec's words: four digits, a
dash-or-slash separator, one or two digits, a separator, one or two
digits, anywhere at the start of the string. -/
def DateSpec (l : List Char) : Prop :=
  ∃ (y mo dd : List Char) (s₁ s₂ : Char) (r : List Char),
    l = y ++ s₁ :: (mo ++ s₂ :: (dd ++ r)) ∧ y.length = 4 ∧
    (mo.length = 1 ∨ mo.length = 2) ∧ (dd.length = 1 ∨ dd.length = 2) ∧
    (∀ c ∈ y, isDig c) ∧ (∀ c ∈ mo, isDig c) ∧ (∀ c ∈ dd, isDig c) ∧
    isSep s₁ ∧ isSep s₂

/-- The claim's clock-time pattern, stated from the spec's words: one or
two digits, a colon, two digits, at the start of the string. -/
def TimeSpec (l : List Char) : Prop :=
  ∃ (hh : List Char) (m₁ m₂ : Char) (r : List Char),
    l = hh ++ ':' :: m₁ :: m₂ :: r ∧ (hh.length = 1 ∨ hh.length = 2) ∧
    (∀ c ∈ hh, isDig c) ∧ isDig m₁ ∧ isDig m₂

theorem not_isSep_of_isDig {c : Char} (h : isDig c) : ¬isSep c := by
  intro hs
  unfold isDig at h
  unfold isSep at hs
  rcases Bool.or_eq_true_iff.mp hs with h' | h' <;>
    · rw [decide_eq_true_eq] at h'
      subst h'
      simp at h

theorem ne_colon_of_isDig {c : Char} (h : isDig c) : c ≠ ':' := by
  intro hc
  subst hc
  simp [isDig] at h

theorem matchDate_iff (l : List Char) :
    matchDate l = true ↔ DateSpec l := by
  constructor
  · intro h
    obtain ⟨a, b, c, d, e, rest, rfl⟩ :
        ∃ a b c d e rest, l = a :: b :: c :: d :: e :: rest := by
      cases l with
      | nil => exact Bool.noConfusion h
      | cons a t =>
        cases t with
        | nil => exact Bool.noConfusion h
        | cons b t =>
          cases t with
          | nil => exact Bool.noConfusion h
          | cons c t =>
            cases t with
            | nil => exact Bool.noConfusion h
            | cons d t =>
              cases t with
              | nil => exact Bool.noConfusion h
              | cons e rest => exact ⟨a, b, c, d, e, rest, rfl⟩
    have h' : (isDig a && isDig b && isDig c && isDig d && isSep e &&
        matchMonthDay rest) = true := h
    simp only [Bool.and_eq_true] at h'
    obtain ⟨⟨⟨⟨⟨ha, hb⟩, hc⟩, hd⟩, he⟩, hmd⟩ := h'
    obtain ⟨x, y, z, rest', rfl⟩ :
        ∃ x y z rest', rest = x :: y :: z :: rest' := by
      cases rest with
      | nil => exact Bool.noConfusion hmd
      | cons x t =>
        cases t with
        | nil => exact Bool.noConfusion hmd
        | cons y t =>
          cases t with
          | nil => exact Bool.noConfusion hmd
          | cons z rest' => exact ⟨x, y, z, rest', rfl⟩
    have hmd' : ((isDig x && isSep y && isDig z) ||
        (isDig x && isDig y && isSep z && headIsDig rest')) = true := hmd
    rcases Bool.or_eq_true_iff.mp hmd' with hopt | hopt
    · simp only [Bool.and_eq_true] at hopt
      obtain ⟨⟨hx, hy⟩, hz⟩ := hopt
      refine ⟨[a, b, c, d], [x], [z], e, y, rest', rfl, rfl,
        Or.inl rfl, Or.inl rfl, ?_, ?_, ?_, he, hy⟩
      · intro ch hch
        simp only [List.mem_cons, List.not_mem_nil, or_false] at hch
        rcases hch with rfl | rfl | rfl | rfl <;> assumption
      · intro ch hch
        simp only [List.mem_cons, List.not_mem_nil, or_false] at hch
        rcases hch with rfl
        exact hx
      · intro ch hch
        simp only [List.mem_cons, List.not_mem_nil, or_false] at hch
        rcases hch with rfl
        exact hz
    · simp only [Bool.and_eq_true] at hopt
      obtain ⟨⟨⟨hx, hy⟩, hz⟩, hw⟩ := hopt
      obtain ⟨w, rest'', rfl⟩ : ∃ w rest'', rest' = w :: rest'' := by
        cases rest' with
        | nil => exact Bool.noConfusion hw
        | cons w rest'' => exact ⟨w, rest'', rfl⟩
      have hw' : isDig w = true := hw
      refine ⟨[a, b, c, d], [x, y], [w], e, z, rest'', rfl, rfl,
        Or.inr rfl, Or.inl rfl, ?_, ?_, ?_, he, hz⟩
      · intro ch hch
        simp only [List.mem_cons, List.not_mem_nil, or_false] at hch
        rcases hch with rfl | rfl | rfl | rfl <;> assumption
      · intro ch hch
        simp only [List.mem_cons, List.not_mem_nil, or_false] at hch
        rcases hch with rfl | rfl <;> assumption
      · intro ch hch
        simp only [List.mem_cons, List.not_mem_nil, or_false] at hch
        rcases hch with rfl
        exact hw'
  · rintro ⟨y, mo, dd, s₁, s₂, r, rfl, hy4, hmo, hdd, hydig, hmodig,
      hdddig, hs₁, hs₂⟩
    obtain ⟨a, b, c, d, rfl⟩ : ∃ a b c d, y = [a, b, c, d] := by
      match y, hy4 with
      | [a, b, c, d], _ => exact ⟨a, b, c, d, rfl⟩
    have ha := hydig a (by simp)
    have hb := hydig b (by simp)
    have hc := hydig c (by simp)
    have hd := hydig d (by simp)
    obtain ⟨z, dd', rfl⟩ : ∃ z dd', dd = z :: dd' := by
      rcases hdd with h1 | h2
      · match dd, h1 with
        | [z], _ => exact ⟨z, [], rfl⟩
      · match dd, h2 with
        | [z, z'], _ => exact ⟨z, [z'], rfl⟩
    have hz := hdddig z (by simp)
    rcases hmo with hmo1 | hmo2
    · obtain ⟨x, rfl⟩ : ∃ x, mo = [x] := by
        match mo, hmo1 with
        | [x], _ => exact ⟨x, rfl⟩
      have hx := hmodig x (by simp)
      show (isDig a && isDig b && isDig c && isDig d && isSep s₁ &&
        matchMonthDay (x :: s₂ :: (z :: (dd' ++ r)))) = true
      have hmd : matchMonthDay (x :: s₂ :: (z :: (dd' ++ r))) = true := by
        show ((isDig x && isSep s₂ && isDig z) ||
          (isDig x && isDig s₂ && isSep z &&
            headIsDig (dd' ++ r))) = true
        rw [hx, hs₂, hz]
        rfl
      rw [ha, hb, hc, hd, hs₁, hmd]
      rfl
    · obtain ⟨x, x', rfl⟩ : ∃ x x', mo = [x, x'] := by
        match mo, hmo2 with
        | [x, x'], _ => exact ⟨x, x', rfl⟩
      have hx := hmodig x (by simp)
      have hx' := hmodig x' (by simp)
      show (isDig a && isDig b && isDig c && isDig d && isSep s₁ &&
        matchMonthDay (x :: x' :: s₂ :: (z :: dd' ++ r))) = true
      have hmd : matchMonthDay (x :: x' :: s₂ :: (z :: dd' ++ r)) = true := by
        show ((isDig x && isSep x' && isDig s₂) ||
          (isDig x && isDig x' && isSep s₂ &&
            headIsDig (z :: dd' ++ r))) = true
        have hhead : headIsDig (z :: dd' ++ r) = isDig z := rfl
        rw [hhead, hx, hx', hs₂, hz]
        simp
      rw [ha, hb, hc, hd, hs₁, hmd]
      rfl

theorem timeTail_shape {t : List Char} (h : timeTail t = true) :
    ∃ x y r, t = ':' :: x :: y :: r ∧ isDig x ∧ isDig y := by
  rw [timeTail.eq_def] at h
  split at h
  · next x y r =>
    simp only [Bool.and_eq_true] at h
    exact ⟨x, y, r, rfl, h.1, h.2⟩
  · exact Bool.noConfusion h

theorem matchTime_iff (l : List Char) :
    matchTime l = true ↔ TimeSpec l := by
  constructor
  · intro h
    obtain ⟨a, rest, rfl⟩ : ∃ a rest, l = a :: rest := by
      cases l with
      | nil => exact Bool.noConfusion h
      | cons a rest => exact ⟨a, rest, rfl⟩
    have h' : (isDig a && (timeTail rest || timeTailTwo rest)) = true := h
    simp only [Bool.and_eq_true] at h'
    obtain ⟨ha, hrest⟩ := h'
    rcases Bool.or_eq_true_iff.mp hrest with htail | hsecond
    · obtain ⟨x, yc, r, rfl, hx, hy⟩ := timeTail_shape htail
      refine ⟨[a], x, yc, r, rfl, Or.inl rfl, ?_, hx, hy⟩
      intro c hc
      simp only [List.mem_cons, List.not_mem_nil, or_false] at hc
      rcases hc with rfl
      exact ha
    · obtain ⟨b, rest₂, rfl⟩ : ∃ b rest₂, rest = b :: rest₂ := by
        cases rest with
        | nil => exact Bool.noConfusion hsecond
        | cons b rest₂ => exact ⟨b, rest₂, rfl⟩
      have h'' : (isDig b && timeTail rest₂) = true := hsecond
      simp only [Bool.and_eq_true] at h''
      obtain ⟨hb, htail⟩ := h''
      obtain ⟨x, yc, r, rfl, hx, hy⟩ := timeTail_shape htail
      refine ⟨[a, b], x, yc, r, rfl, Or.inr rfl, ?_, hx, hy⟩
      intro c hc
      simp only [List.mem_cons, List.not_mem_nil, or_false] at hc
      rcases hc with rfl | rfl <;> assumption
  · rintro ⟨hh, m₁, m₂, r, rfl, hlen, hdig, hm₁, hm₂⟩
    have ht : timeTail (':' :: m₁ :: m₂ :: r) = true := by
      show (isDig m₁ && isDig m₂) = true
      rw [hm₁, hm₂]
      rfl
    rcases hlen with h1 | h2
    · obtain ⟨a, rfl⟩ : ∃ a, hh = [a] := by
        match hh, h1 with
        | [a], _ => exact ⟨a, rfl⟩
      show (isDig a && (timeTail (':' :: m₁ :: m₂ :: r) ||
        timeTailTwo (':' :: m₁ :: m₂ :: r))) = true
      rw [hdig a (by simp), ht]
      rfl
    · obtain ⟨a, b, rfl⟩ : ∃ a b, hh = [a, b] := by
        match hh, h2 with
        | [a, b], _ => exact ⟨a, b, rfl⟩
      have hb := hdig b (by simp)
      show (isDig a && (timeTail (b :: ':' :: m₁ :: m₂ :: r) ||
        timeTailTwo (b :: ':' :: m₁ :: m₂ :: r))) = true
      have ht2 : timeTailTwo (b :: ':' :: m₁ :: m₂ :: r) = true := by
        show (isDig b && timeTail (':' :: m₁ :: m₂ :: r)) = true
        rw [hb, ht]
        rfl
      rw [hdig a (by simp), ht2]
      simp

theorem stripped_equiv (l : List Char) :
    pyIsDigit ((l.filter (· ≠ '.')).filter (· ≠ '-')) = true ↔
      ((l.filter (fun c => decide (c ≠ '.' ∧ c ≠ '-'))) ≠ [] ∧
        ∀ c ∈ l.filter (fun c => decide (c ≠ '.' ∧ c ≠ '-')), isDig c) := by
  have hff : (l.filter (· ≠ '.')).filter (· ≠ '-') =
      l.filter (fun c => decide (c ≠ '.' ∧ c ≠ '-')) := by
    rw [List.filter_filter]
    apply List.filter_congr
    intro c _
    by_cases h1 : c = '.' <;> by_cases h2 : c = '-' <;> simp [h1, h2]
  rw [hff]
  unfold pyIsDigit
  rw [Bool.and_eq_true, List.all_eq_true]
  constructor
  · rintro ⟨h1, h2⟩
    refine ⟨?_, h2⟩
    intro hnil
    rw [hnil] at h1
    exact Bool.noConfusion h1
  · rintro ⟨h1, h2⟩
    refine ⟨?_, h2⟩
    cases hl : l.filter (fun c => decide (c ≠ '.' ∧ c ≠ '-')) with
    | nil => exact absurd hl h1
    | cons a t => rfl

theorem shortMarker_iff (v : String) :
    (v.data.length < 10 &&
      !markerChars.any (fun c => v.data.contains c)) = true ↔
      (v.data.length < 10 ∧ ∀ c ∈ markerChars, c ∉ v.data) := by
  rw [Bool.and_eq_true, decide_eq_true_eq, Bool.not_eq_true',
    ← Bool.not_eq_true, List.any_eq_true]
  constructor
  · rintro ⟨h1, h2⟩
    refine ⟨h1, fun c hc hmem => h2 ⟨c, hc, ?_⟩⟩
    exact List.elem_eq_true_of_mem hmem
  · rintro ⟨h1, h2⟩
    refine ⟨h1, fun hex => ?_⟩
    obtain ⟨c, hc, hcont⟩ := hex
    exact h2 c hc (List.mem_of_elem_eq_true hcont)

/-- The claim's first disjunct, stated from the spec's words: the object
string parses as a pure number (optional minus sign, an integer part, and
an optional fractional part). -/
def pureNumber (l : List Char) : Bool :=
  let l := match l with
    | '-' :: rest => rest
    | _ => l
  let ds := l.takeWhile isDig
  let rest := l.dropWhile isDig
  !ds.isEmpty &&
    (rest.isEmpty ||
      match rest with
      | '.' :: frac => !frac.isEmpty && frac.all isDig
      | _ => false)

/-- The literal classification exactly as the claim states it. -/
def claimIsLiteral (v : String) : Prop :=
  pureNumber v.data = true ∨ DateSpec v.data ∨ TimeSpec v.data ∨
    (v.data.length < 10 ∧ ∀ c ∈ markerChars, c ∉ v.data)

/-- The literal classification with the claim's first disjunct amended to
the code's actual test: all characters are digits — and at least one
remains — after deleting every dot and dash. -/
def amendedIsLiteral (v : String) : Prop :=
  ((v.data.filter (fun c => decide (c ≠ '.' ∧ c ≠ '-'))) ≠ [] ∧
    ∀ c ∈ v.data.filter (fun c => decide (c ≠ '.' ∧ c ≠ '-')), isDig c) ∨
  DateSpec v.data ∨ TimeSpec v.data ∨
  (v.data.length < 10 ∧ ∀ c ∈ markerChars, c ∉ v.data)

/-- C9 counterexample: the object string `"1.1.1.1.1.1"` (length 11, so
not short) is not a pure number, matches neither the date nor the
clock-time pattern, yet `_is_literal` classifies it as a literal because
deleting dots and dashes leaves only digits. -/
theorem c9_counterexample :
    isLiteral "1.1.1.1.1.1" = true ∧ ¬claimIsLiteral "1.1.1.1.1.1" := by
  refine ⟨by decide, ?_⟩
  rintro (h | h | h | h)
  · exact absurd h (by decide)
  · exact absurd ((matchDate_iff _).mpr h) (by decide)
  · exact absurd ((matchTime_iff _).mpr h) (by decide)
  · exact absurd h.1 (by decide)

/-- The rule-based confidence 0.6 as an explicitly normalized rational,
so that kernel reduction (`decide`) can evaluate the confidence guard of
`_add_triple_to_rdf` on concrete inputs. -/
def conf06 : ℚ := ⟨3, 5, by norm_num, by norm_num⟩

/-- C9 (amended): `_is_literal` classifies an object string as a literal
exactly when deleting every dot and dash leaves a nonempty all-digit
string, or it matches the date pattern, or the clock-time pattern, or it
is shorter than 10 characters and carries no institution marker
character.  In particular `"2024-01-05"` is stored as a plain literal (its
sanitized name is never a subject), while `"北京科技公司"` is stored as a
minted entity with its own identifier, type statement and label. -/
theorem c9_literal_entity_decision :
    (∀ v : String, isLiteral v = true ↔ amendedIsLiteral v) ∧
    (⟨URI.kg (sanitizeName "合同"), URI.kg (sanitizeName "签订于"),
        Node.lit (Value.vstr "2024-01-05") none⟩ : Stmt) ∈
      addTripleToRDF []
        ⟨"合同", "签订于", "2024-01-05", conf06, "Entity", "Time", "Action"⟩ ∧
    (addTripleToRDF []
        ⟨"合同", "签订于", "2024-01-05", conf06, "Entity", "Time",
          "Action"⟩).all
      (fun s => s.subj != URI.kg (sanitizeName "2024-01-05")) = true ∧
    (⟨URI.kg (sanitizeName "张三"), URI.kg (sanitizeName "工作于"),
        Node.uri (URI.kg (sanitizeName "北京科技公司"))⟩ : Stmt) ∈
      addTripleToRDF []
        ⟨"张三", "工作于", "北京科技公司", conf06, "Person", "Company",
          "Action"⟩ ∧
    (⟨URI.kg (sanitizeName "北京科技公司"), URI.rdfType,
        Node.uri (URI.kg "Company")⟩ : Stmt) ∈
      addTripleToRDF []
        ⟨"张三", "工作于", "北京科技公司", conf06, "Person", "Company",
          "Action"⟩ ∧
    (⟨URI.kg (sanitizeName "北京科技公司"), URI.rdfsLabel,
        Node.lit (Value.vstr "北京科技公司") (some "zh")⟩ : Stmt) ∈
      addTripleToRDF []
        ⟨"张三", "工作于", "北京科技公司", conf06, "Person", "Company",
          "Action"⟩ := by
  refine ⟨?_, by decide, by decide, by decide, by decide, by decide⟩
  intro v
  unfold isLiteral amendedIsLiteral
  simp only [Bool.or_eq_true]
  rw [stripped_equiv, matchDate_iff, matchTime_iff, shortMarker_iff]
  tauto

/-- Witness for C9 (amended), applying the classification equivalence at
the date string of the spec's example. -/
theorem c9_literal_entity_decision_witness :
    isLiteral "2024-01-05" = true ↔ amendedIsLiteral "2024-01-05" :=
  c9_literal_entity_decision.1 "2024-01-05"

end RDFConv
